import Mathlib

/-!
Verification development for the coral-compare scraping pipeline
(Next.js route `src/app/api/scrape/route.ts`, main implementation in the
repository's route module).  The TypeScript functions are shallowly
embedded as executable Lean definitions: JavaScript numbers are modelled
as `ℚ` (all values reached by the pipeline are finite decimals, so the
`Number.isFinite` guards are vacuous and noted where they occur),
`null`/`undefined` become `Option`, and DOM/cheerio query results become
explicit structure fields holding the text each selector would produce.
-/

/-! ## JavaScript string helpers -/

/-- JS string truthiness: a string is truthy iff it is non-empty. -/
def strTruthy (s : String) : Bool := s ≠ ""

/-- Truthiness of a nullable string (`null`/`undefined` are falsy). -/
def optStrTruthy : Option String → Bool
  | none => false
  | some s => strTruthy s

/-- JS `a || b` on nullable strings: `b` when `a` is null or empty. -/
def jsOrS (a b : Option String) : Option String :=
  if optStrTruthy a then a else b

/-- First truthy (non-empty) string of a list, else `""` (JS `a || b || c || ""`). -/
def firstTruthy : List String → String
  | [] => ""
  | s :: rest => if strTruthy s then s else firstTruthy rest

/-- Whether the character list `p` is a leading segment of `l`. -/
def leadSeg : List Char → List Char → Bool
  | [], _ => true
  | _ :: _, [] => false
  | a :: as, b :: bs => a == b && leadSeg as bs

/-- Whether `p` occurs as a contiguous segment of `l` (JS `String.includes`). -/
def hasSeg (p : List Char) : List Char → Bool
  | [] => p.isEmpty
  | c :: cs => leadSeg p (c :: cs) || hasSeg p cs

/-- JS `hay.includes(need)`. -/
def strIncludes (hay need : String) : Bool := hasSeg need.toList hay.toList

/-- JS `s.toLowerCase()` (per-character lowering; the pipeline only
relies on the ASCII range). -/
def jsToLower (s : String) : String := String.mk (s.toList.map Char.toLower)

/-- JS `s.trim()`: strip leading and trailing whitespace. -/
def jsTrim (s : String) : String :=
  String.mk (((s.toList.dropWhile Char.isWhitespace).reverse.dropWhile Char.isWhitespace).reverse)

/-- JS `s.startsWith(p)`. -/
def strStarts (s p : String) : Bool := leadSeg p.toList s.toList

/-- JS `s.endsWith(p)`. -/
def strEnds (s p : String) : Bool := leadSeg p.toList.reverse s.toList.reverse

/-- Split a character list at every character satisfying `pred`, keeping
empty pieces (the behaviour of JS `split` with a one-character separator). -/
def splitChars (pred : Char → Bool) : List Char → List (List Char)
  | [] => [[]]
  | c :: cs =>
      let rest := splitChars pred cs
      if pred c then [] :: rest
      else
        match rest with
        | [] => [[c]]
        | t :: ts => (c :: t) :: ts

/-- JS `s.split(sep)` for a one-character separator. -/
def splitOnChar (sep : Char) (s : String) : List String :=
  (splitChars (fun c => c == sep) s.toList).map String.mk

/-- `norm` from the source: collapse every whitespace run to one space and trim. -/
def normStr (s : String) : String :=
  String.intercalate " "
    (((splitChars Char.isWhitespace s.toList).map String.mk).filter (fun w => w ≠ ""))

/-! ## Kernel-computable rational arithmetic

The pipeline's JS numbers are modelled as `ℚ`.  The arithmetic it needs
is expressed through `mkRat` so that concrete runs reduce inside the
kernel; each operation is proved equal to the corresponding field
operation on `ℚ`. -/

/-- Addition of rationals via `mkRat`. -/
def qAdd (a b : ℚ) : ℚ := mkRat (a.num * b.den + b.num * a.den) (a.den * b.den)

/-- Multiplication of a rational by a natural via `mkRat`. -/
def qMulNat (a : ℚ) (k : ℕ) : ℚ := mkRat (a.num * k) a.den

/-- Division of a rational by a natural via `mkRat`. -/
def qDivNat (a : ℚ) (k : ℕ) : ℚ := mkRat a.num (a.den * k)

theorem qAdd_eq (a b : ℚ) : qAdd a b = a + b := by
  unfold qAdd
  rw [Rat.mkRat_eq_div]
  push_cast
  conv_rhs => rw [← Rat.num_div_den a, ← Rat.num_div_den b]
  have ha : ((a.den : ℚ)) ≠ 0 := Nat.cast_ne_zero.mpr (Rat.den_ne_zero a)
  have hb : ((b.den : ℚ)) ≠ 0 := Nat.cast_ne_zero.mpr (Rat.den_ne_zero b)
  field_simp

theorem qMulNat_eq (a : ℚ) (k : ℕ) : qMulNat a k = a * k := by
  unfold qMulNat
  rw [Rat.mkRat_eq_div]
  push_cast
  conv_rhs => rw [← Rat.num_div_den a, div_mul_eq_mul_div]

theorem qDivNat_eq (a : ℚ) (k : ℕ) : qDivNat a k = a / k := by
  unfold qDivNat
  rw [Rat.mkRat_eq_div]
  push_cast
  conv_rhs => rw [← Rat.num_div_den a, div_div]

/-! ## `priceNum`: JS `Number` on a digits-and-dots string -/

/-- Numeric value of a list of decimal digits. -/
def digitsVal (ds : List Char) : ℕ :=
  ds.foldl (fun n c => n * 10 + (c.toNat - 48)) 0

/--
JS `Number(t)` restricted to the strings `priceNum` can produce
(non-empty, characters drawn from digits and `'.'`): an optional integer
part, at most one dot, an optional fraction part; a lone dot or a second
dot gives `NaN` (modelled as `none`).
-/
def jsNumber (t : String) : Option ℚ :=
  match splitOnChar '.' t with
  | [a] => some (digitsVal a.toList : ℚ)
  | [a, b] =>
      if a.isEmpty && b.isEmpty then none
      else some (qAdd (digitsVal a.toList : ℚ)
        (qDivNat (digitsVal b.toList : ℚ) (10 ^ b.length)))
  | _ => none

/--
`priceNum` from the source: drop whitespace, turn commas into dots, keep
only digits and dots, then parse with JS `Number` (empty string gives
`null`; the `Number.isFinite` guard never fires on these inputs).
-/
def priceNum (s : String) : Option ℚ :=
  let t := (s.toList.map (fun c => if c == ',' then '.' else c)).filter
      (fun c => c.isDigit || c == '.')
  if t.isEmpty then none else jsNumber (String.mk t)

/-! ## Data model -/

/-- Listing availability status (`"available" | "sold_out"`). -/
inductive LStatus where
  | available
  | sold_out
deriving DecidableEq, Repr

/-- The `Listing` row shape from the source (`url` is nullable there). -/
structure Listing where
  shop_id : String
  category : String
  title_raw : String
  url : Option String
  image_url : Option String
  price_cad : Option ℚ
  sale_price_cad : Option ℚ
  status : LStatus
  variant : Option String
  sale_mode : Option String
  unit_type : Option String
  unit_count : Option ℕ
deriving DecidableEq, Repr

/-- `isWysiwyg` from the source: lower-cased title contains `"wysiwyg"`. -/
def isWysiwyg (t : String) : Bool := strIncludes (jsToLower t) "wysiwyg"

/-- `enforceTorch` from the source. -/
def enforceTorch (listing : Listing) : Listing :=
  if listing.category ≠ "torch" then listing
  else if isWysiwyg listing.title_raw then { listing with sale_mode := some "wysiwyg" }
  else { listing with sale_mode := some "per_unit", unit_type := some "head" }

/-- `safePrice` from the source (`Number.isFinite` is vacuous over `ℚ`). -/
def safePrice : Option ℚ → Option ℚ
  | none => none
  | some n => if n ≤ 0 then none else some n

/-- `effectivePrice` from the source: `sale ?? price`. -/
def effectivePrice (price sale : Option ℚ) : Option ℚ :=
  match sale with
  | some s => some s
  | none => price

/-! ## URL model

A WHATWG `URL` is modelled structurally: scheme, host, pathname (always
beginning with `"/"` after parsing) and the ordered multiset of query
parameters.  Serialisation concatenates the parts; percent-encoding is
out of scope (theorems quantify over already-decoded components).  The
JS `pathname` setter cannot empty a special URL's path, so an emptied
path reads back as `"/"`; this is folded into the normaliser. -/

structure JsUrl where
  scheme : String
  host : String
  pathname : String
  params : List (String × String)
deriving DecidableEq, Repr

/-- Render a query-parameter list (`URLSearchParams` serialisation). -/
def renderParams : List (String × String) → String
  | [] => ""
  | ps => "?" ++ String.intercalate "&" (ps.map (fun kv => kv.1 ++ "=" ++ kv.2))

/-- `URL.toString()` for the structural model. -/
def urlToString (u : JsUrl) : String :=
  u.scheme ++ "://" ++ u.host ++ u.pathname ++ renderParams u.params

/--
The pathname rewrite inside `stripLocale`: the regex
`^\/[a-z]\x7b2\x7d(?:-[a-z]\x7b2\x7d)?\//i` replaces one leading
two-letter (optionally region-suffixed) segment by `"/"`.
-/
def stripLocalePath (p : String) : String :=
  match p.toList with
  | '/' :: a :: b :: '/' :: rest =>
      if a.isAlpha && b.isAlpha then String.mk ('/' :: rest) else p
  | '/' :: a :: b :: '-' :: c :: d :: '/' :: rest =>
      if a.isAlpha && b.isAlpha && c.isAlpha && d.isAlpha then String.mk ('/' :: rest) else p
  | _ => p

/-- `stripLocale` from the source, on the structural URL. -/
def stripLocale (u : JsUrl) : JsUrl :=
  { u with pathname := stripLocalePath u.pathname }

/-- The pathname rewrite `replace(/\/+$/, "")`: drop every trailing slash. -/
def dropTrailingSlashes (p : String) : String :=
  String.mk ((p.toList.reverse.dropWhile (fun c => c == '/')).reverse)

/-- The tracking parameters deleted by `normalizeUrl`. -/
def trackingKeys : List String :=
  ["utm_source", "utm_medium", "utm_campaign", "utm_term", "utm_content", "fbclid", "gclid"]

/-- Strict character comparison by code point. -/
def charLt (a b : Char) : Bool := decide (a.toNat < b.toNat)

/-- Strict lexicographic comparison of character lists. -/
def charListLt : List Char → List Char → Bool
  | _, [] => false
  | [], _ :: _ => true
  | a :: as, b :: bs =>
      if charLt a b then true
      else if charLt b a then false
      else charListLt as bs

/-- Key order used by the sort: `a.localeCompare(b) <= 0`, with
`localeCompare` modelled as the lexicographic code-point order. -/
def keyLe (x y : String × String) : Bool := !(charListLt y.1.toList x.1.toList)

/-- Stable insertion of a parameter into a key-sorted list (ties keep the
inserted element first, matching a stable sort that compares keys only). -/
def insertParam (x : String × String) : List (String × String) → List (String × String)
  | [] => [x]
  | y :: ys => if keyLe x y then x :: y :: ys else y :: insertParam x ys

/-- Stable sort of the parameter list by key (JS
`sort(([a],[b]) => a.localeCompare(b))` — `Array.prototype.sort` is stable). -/
def sortParams : List (String × String) → List (String × String)
  | [] => []
  | x :: xs => insertParam x (sortParams xs)

/-- `normalizeUrl` from the source: strip one locale segment, delete the
tracking parameters, drop trailing slashes from the path (an emptied path
reads back as `"/"`), and re-append the parameters sorted by key. -/
def normalizeUrl (u : JsUrl) : JsUrl :=
  let u1 := stripLocale u
  let ps := u1.params.filter (fun kv => !(trackingKeys.contains kv.1))
  let p2 := dropTrailingSlashes u1.pathname
  { scheme := u1.scheme
    host := u1.host
    pathname := if p2 = "" then "/" else p2
    params := sortParams ps }

/-- `canonicalProductUrl` from the source: normalise, then drop the whole
query string. -/
def canonicalProductUrl (u : JsUrl) : JsUrl :=
  { normalizeUrl u with params := [] }

/-! ## Shopify single-product extractor (`/products/\x7bhandle\x7d.js`)

A variant of the `.js` endpoint carries `price`/`compare_at_price` in
cents as JS numbers (`none` models a missing or non-number field, the
`typeof v?.price === "number"` guard), `available`, a `title` and an
optional `featured_image.src`. -/

structure JsVariant where
  price : Option ℚ
  compare_at_price : Option ℚ
  available : Bool
  title : Option String
  featured_image : Option String
deriving DecidableEq, Repr

structure JsProduct where
  title : Option String
  variants : List JsVariant
  featured_image : Option String
  images : List String
deriving DecidableEq, Repr

/-- A scored variant, generic in the carried variant payload. -/
structure ScoredVariant (α : Type) where
  v : α
  price_cad : Option ℚ
  sale_price_cad : Option ℚ
  eff : Option ℚ
  available : Bool
deriving DecidableEq, Repr

/-- The scoring step of `buildSingleShopifyListing`: prices are cents
divided by 100; when both prices exist and compare-at exceeds price the
compare-at becomes the regular price and the price the sale price. -/
def scoreVariantJs (v : JsVariant) : ScoredVariant JsVariant :=
  let price := v.price.map (fun n => qDivNat n 100)
  let compare := v.compare_at_price.map (fun n => qDivNat n 100)
  let price_cad :=
    match compare, price with
    | some c, some p => if c > p then some c else price
    | _, _ => price
  let sale_price_cad :=
    match compare, price with
    | some c, some p => if c > p then some p else none
    | _, _ => none
  { v := v
    price_cad := safePrice price_cad
    sale_price_cad := safePrice sale_price_cad
    eff := safePrice (effectivePrice price_cad sale_price_cad)
    available := v.available }

/-- Numeric sort key of a scored variant (the JS comparator dereferences
`eff!`; pool members always carry a price, so the default is never read). -/
def effKey {α : Type} (x : ScoredVariant α) : ℚ := x.eff.getD 0

/-- The first-encountered element of minimal key among `x :: xs` (ties
resolve to the earlier element). -/
def selectBest1 {α : Type} (x : ScoredVariant α) : List (ScoredVariant α) → ScoredVariant α
  | [] => x
  | y :: ys =>
      let b := selectBest1 y ys
      if effKey x ≤ effKey b then x else b

/-- `pool.sort((a, b) => a.eff! - b.eff!)[0]`: the stable sort followed by
taking the head returns the first-encountered variant of minimal key. -/
def selectBest {α : Type} : List (ScoredVariant α) → Option (ScoredVariant α)
  | [] => none
  | x :: xs => some (selectBest1 x xs)

/-- The pool `buildSingleShopifyListing` selects from: available variants
with a usable effective price when any exist, else all variants with a
usable effective price. -/
def shopifyPool (scored : List (ScoredVariant JsVariant)) : List (ScoredVariant JsVariant) :=
  let availablePool := scored.filter (fun x => x.available && x.eff.isSome)
  if availablePool.isEmpty then scored.filter (fun x => x.eff.isSome) else availablePool

/-- The variant title kept on the listing: the variant's title unless it
is falsy or the `"Default Title"` sentinel (case-insensitive). -/
def shopifyVariantTitle (title : Option String) : Option String :=
  match title with
  | some t => if strTruthy t && jsToLower t != "default title" then some t else none
  | none => none

/-- `buildSingleShopifyListing` from the source. -/
def buildSingleShopifyListing (productUrl : JsUrl) (product : JsProduct)
    (shop_id category : String) : Option Listing :=
  let titleBase := normStr (if optStrTruthy product.title then product.title.getD "" else "Untitled")
  let url := urlToString (canonicalProductUrl productUrl)
  if product.variants.isEmpty then none
  else
    let scored := product.variants.map scoreVariantJs
    let pool := shopifyPool scored
    match selectBest pool with
    | none => none
    | some best =>
        let variantTitle := shopifyVariantTitle best.v.title
        some (enforceTorch
          { shop_id := shop_id
            category := category
            title_raw := match variantTitle with
              | some vt => titleBase ++ " — " ++ vt
              | none => titleBase
            url := some url
            image_url := jsOrS best.v.featured_image
              (jsOrS product.featured_image (jsOrS product.images.head? none))
            price_cad := best.price_cad
            sale_price_cad := best.sale_price_cad
            status := if best.available then .available else .sold_out
            variant := variantTitle
            sale_mode := none
            unit_type := none
            unit_count := none })

/-! ## Shopify catalog extractor (`/products.json`)

Catalog products carry prices as strings, a `handle`, `tags` that may be
an array or a comma-separated string, and gallery images. -/

structure PJVariant where
  title : Option String
  price : Option String
  compare_at_price : Option String
deriving DecidableEq, Repr

/-- The `tags` field of a catalog product: absent, an array, or a string. -/
inductive PJTags where
  | missing
  | arr (tags : List String)
  | str (s : String)
deriving DecidableEq, Repr

structure PJProduct where
  title : Option String
  handle : Option String
  tags : PJTags
  variants : List PJVariant
  image : Option String
  images : List (Option String)
deriving DecidableEq, Repr

/-- `tagsToArray` from the source (a falsy tags value yields `[]`). -/
def tagsToArray : PJTags → List String
  | .missing => []
  | .arr tags => tags
  | .str s =>
      if s = "" then []
      else ((splitOnChar ',' s).map jsTrim).filter (fun t => t ≠ "")

/-- `productLooksTorch` from the source. -/
def productLooksTorch (p : PJProduct) : Bool :=
  let title := jsToLower (if optStrTruthy p.title then p.title.getD "" else "")
  let tags := (tagsToArray p.tags).map jsToLower
  if strIncludes title "torch" || strIncludes title "torche" then true
  else if tags.any (fun t => strIncludes t "torch") then true
  else if strIncludes title "glabrescens" then true
  else if tags.any (fun t => strIncludes t "glabrescens") then true
  else false

/-- The scoring step of `buildSingleShopifyListingFromProductsJson`:
string prices go through `priceNum`; catalog variants are always treated
as available (`products.json` does not report stock reliably). -/
def scoreVariantPJ (v : PJVariant) : ScoredVariant PJVariant :=
  let price := match v.price with
    | some s => priceNum s
    | none => none
  let compare := match v.compare_at_price with
    | some s => priceNum s
    | none => none
  let price_cad :=
    match compare, price with
    | some c, some p => if c > p then some c else price
    | _, _ => price
  let sale_price_cad :=
    match compare, price with
    | some c, some p => if c > p then some p else none
    | _, _ => none
  { v := v
    price_cad := safePrice price_cad
    sale_price_cad := safePrice sale_price_cad
    eff := safePrice (effectivePrice price_cad sale_price_cad)
    available := true }

/-- The origin of a source URL (`new URL(src.url).origin`). -/
structure JsOrigin where
  scheme : String
  host : String
deriving DecidableEq, Repr

/-- The product URL built by the catalog extractor:
`origin + "/products/" + handle`, with an empty query. -/
def catalogProductUrl (origin : JsOrigin) (handle : String) : JsUrl :=
  { scheme := origin.scheme
    host := origin.host
    pathname := "/products/" ++ handle
    params := [] }

/-- `buildSingleShopifyListingFromProductsJson` from the source. -/
def buildSingleShopifyListingFromProductsJson (origin : JsOrigin) (p : PJProduct)
    (shop_id fallbackCategory : String) : Option Listing :=
  let titleBase := normStr (if optStrTruthy p.title then p.title.getD "" else "Untitled")
  let handle := jsTrim (if optStrTruthy p.handle then p.handle.getD "" else "")
  if handle = "" then none
  else
    let url := urlToString (canonicalProductUrl (catalogProductUrl origin handle))
    if p.variants.isEmpty then none
    else
      let scored := p.variants.map scoreVariantPJ
      let pool := scored.filter (fun x => x.eff.isSome)
      match selectBest pool with
      | none => none
      | some best =>
          let variantTitle := shopifyVariantTitle best.v.title
          let imageUrl := jsOrS p.image (jsOrS (p.images.head?.getD none) none)
          let category := if productLooksTorch p then "torch" else fallbackCategory
          some (enforceTorch
            { shop_id := shop_id
              category := category
              title_raw := match variantTitle with
                | some vt => titleBase ++ " — " ++ vt
                | none => titleBase
              url := some url
              image_url := imageUrl
              price_cad := best.price_cad
              sale_price_cad := best.sale_price_cad
              status := .available
              variant := variantTitle
              sale_mode := none
              unit_type := none
              unit_count := none })

/-! ## Shopify HTML fallback

The cheerio queries of `parseShopifyHtmlFallback` are modelled as fields
holding the text each selector produces on the fetched page; the raw
page text itself is kept for the `"sold out"` substring test.  The
`ShopifyAnalytics.meta` product, when the regex and `JSON.parse`
succeed and it has a non-empty variant array, reuses the `.js` variant
shape. -/

structure ShopifyFallbackPage where
  h1Text : String
  docTitle : String
  ogImageProp : Option String
  ogImageName : Option String
  analyticsVariants : Option (List JsVariant)
  metaPriceAmount : Option String
  ogPriceAmount : Option String
  itempropPrice : Option String
  ldOffersPrices : List (Option String)
  priceClassText : String
  html : String
deriving Repr

/-- The result record of `parseShopifyHtmlFallback`. -/
structure ShopifyHtmlFallback where
  title : String
  imageUrl : Option String
  price_cad : Option ℚ
  sale_price_cad : Option ℚ
  status : LStatus
  variantTitle : Option String
deriving DecidableEq, Repr

/-- The JSON-LD loop: the first script whose `offers` price is non-null
sets `ldPrice` via `priceNum`; later scripts may retry while it is null. -/
def ldPriceLoop : List (Option String) → Option ℚ → Option ℚ
  | [], acc => acc
  | x :: xs, acc =>
      match x, acc with
      | some s, none => ldPriceLoop xs (priceNum s)
      | _, _ => ldPriceLoop xs acc

/-- The `ShopifyAnalytics.meta.product` branch of
`parseShopifyHtmlFallback`: when the embedded analytics variants exist and
one can be selected, it produces the whole result. -/
def shopifyAnalyticsResult (page : ShopifyFallbackPage) (title : String)
    (imageUrl : Option String) : Option ShopifyHtmlFallback :=
  match page.analyticsVariants with
  | none => none
  | some [] => none
  | some variants =>
      let scored := variants.map scoreVariantJs
      let pool := shopifyPool scored
      match selectBest pool with
      | none => none
      | some best =>
          some { title := title
                 imageUrl := imageUrl
                 price_cad := best.price_cad
                 sale_price_cad := best.sale_price_cad
                 status := if best.available then .available else .sold_out
                 variantTitle := shopifyVariantTitle best.v.title }

/-- `parseShopifyHtmlFallback` from the source. -/
def parseShopifyHtmlFallback (page : ShopifyFallbackPage) : ShopifyHtmlFallback :=
  let title := firstTruthy [normStr page.h1Text, normStr page.docTitle, "Untitled"]
  let imageUrl := jsOrS page.ogImageProp (jsOrS page.ogImageName none)
  let analytics : Option ShopifyHtmlFallback := shopifyAnalyticsResult page title imageUrl
  match analytics with
  | some r => r
  | none =>
      let metaPrice := jsOrS page.metaPriceAmount
        (jsOrS page.ogPriceAmount (jsOrS page.itempropPrice none))
      let pMeta := match metaPrice with
        | some s => priceNum s
        | none => none
      let ldPrice := ldPriceLoop page.ldOffersPrices none
      let textPrice := normStr page.priceClassText
      let pText := if textPrice ≠ "" then priceNum textPrice else none
      let price := safePrice (match pMeta with
        | some q => some q
        | none => match ldPrice with
          | some q => some q
          | none => pText)
      let status : LStatus :=
        if strIncludes (jsToLower page.html) "sold out" then .sold_out else .available
      { title := title
        imageUrl := imageUrl
        price_cad := price
        sale_price_cad := none
        status := status
        variantTitle := none }

/-- The listing the orchestrator builds from a Shopify HTML fallback
result (the inline object in `scrapeSource`). -/
def buildShopifyFallbackListing (url : JsUrl) (fb : ShopifyHtmlFallback)
    (shop_id category : String) : Listing :=
  enforceTorch
    { shop_id := shop_id
      category := category
      title_raw := match fb.variantTitle with
        | some vt => fb.title ++ " — " ++ vt
        | none => fb.title
      url := some (urlToString (canonicalProductUrl url))
      image_url := fb.imageUrl
      price_cad := safePrice fb.price_cad
      sale_price_cad := safePrice fb.sale_price_cad
      status := fb.status
      variant := fb.variantTitle
      sale_mode := none
      unit_type := none
      unit_count := none }

/-! ## WooCommerce HTML extractor

`parseHtmlProduct`'s cheerio queries are modelled as fields holding the
text (or attribute) each selector produces; the pure combination logic
below them is translated directly. -/

/-- `pickFromSrcset` from the source: first URL of a `srcset` attribute. -/
def pickFromSrcset : Option String → Option String
  | none => none
  | some srcset =>
      match (splitOnChar ',' srcset).head? with
      | none => none
      | some first =>
          let first := jsTrim first
          if first = "" then none
          else
            match (splitOnChar ' ' first).head? with
            | none => none
            | some u => if jsTrim u = "" then none else some (jsTrim u)

/-- `looksLikeBadImg` from the source. -/
def looksLikeBadImg (u : String) : Bool :=
  let low := jsToLower u
  if strIncludes low "logo" then true
  else if strIncludes low "placeholder" then true
  else if strIncludes low "no-image" then true
  else if strIncludes low "favicon" then true
  else if strIncludes low "site-icon" then true
  else if strEnds low ".svg" then true
  else if strIncludes low "-150x" || strIncludes low "-100x" || strIncludes low "-80x" then true
  else false

/-- Resolution of a candidate against the page URL (`new URL(s, urlRaw)`),
modelled for the cases the pipeline meets: absolute URLs pass through,
protocol-relative and path-relative candidates resolve against the page's
scheme and origin. -/
def resolveAgainst (base : JsUrl) (s : String) : String :=
  if strIncludes s "://" then s
  else if strStarts s "//" then base.scheme ++ ":" ++ s
  else if strStarts s "/" then base.scheme ++ "://" ++ base.host ++ s
  else base.scheme ++ "://" ++ base.host ++ "/" ++ s

/-- `absolutizeImg` from the source: trim, resolve against the page URL,
reject known non-product image patterns. -/
def absolutizeImg (urlRaw : JsUrl) (u : Option String) : Option String :=
  match u with
  | none => none
  | some raw =>
      let s := jsTrim raw
      if s = "" then none
      else
        let abs := resolveAgainst urlRaw s
        if looksLikeBadImg abs then none else some abs

/-- The selector results `parseHtmlProduct` reads from the page. -/
structure WooPage where
  productTitleText : String
  firstH1Text : String
  docTitle : String
  saleAmountText : String
  saleAmountAltText : String
  saleInsText : String
  regularAmountText : String
  regularAmountAltText : String
  regularDelText : String
  singleAmountText : String
  singleAmountAltText : String
  singlePPriceText : String
  stockText : String
  ogImageProp : Option String
  ogImageName : Option String
  imageCandidates : List (Option String)
deriving Repr

/-- The price combination of `parseHtmlProduct`: when a truthy regular
and sale price exist with regular above sale, the pair is
(regular, sale); otherwise the single price is `sale ?? single ??
regular ?? null` with no sale price.  JS `&&` tests number truthiness
(null and 0 are falsy) while `??` only tests null. -/
def wooPrices (sale regular single : Option ℚ) : Option ℚ × Option ℚ :=
  let numTruthy : Option ℚ → Bool := fun o =>
    match o with
    | some q => q ≠ 0
    | none => false
  let onSale := numTruthy regular && numTruthy sale && regular.getD 0 > sale.getD 0
  (if onSale then regular
   else match sale with
     | some s => some s
     | none =>
       match single with
       | some s => some s
       | none => regular,
   if onSale then sale else none)

/-- `parseHtmlProduct` from the source (Woo / Fragbox / ABC pages). -/
def parseHtmlProduct (urlRaw : JsUrl) (page : WooPage)
    (shop_id category : String) : Listing :=
  let title := firstTruthy
    [normStr page.productTitleText, normStr page.firstH1Text, normStr page.docTitle, "Untitled"]
  let saleText := firstTruthy
    [normStr page.saleAmountText, normStr page.saleAmountAltText, normStr page.saleInsText]
  let regularText := firstTruthy
    [normStr page.regularAmountText, normStr page.regularAmountAltText, normStr page.regularDelText]
  let singleText := firstTruthy
    [normStr page.singleAmountText, normStr page.singleAmountAltText, normStr page.singlePPriceText]
  let sale := priceNum saleText
  let regular := priceNum regularText
  let single := priceNum singleText
  let stock := jsToLower (normStr page.stockText)
  let status : LStatus :=
    if strIncludes stock "out of stock" || strIncludes stock "rupture" then .sold_out
    else .available
  let rawCandidates := page.ogImageProp :: page.ogImageName :: page.imageCandidates
  let imageUrl := ((rawCandidates.map (absolutizeImg urlRaw)).filter Option.isSome).head?.getD none
  let prices := wooPrices sale regular single
  let price_cad : Option ℚ := prices.1
  let sale_price_cad : Option ℚ := prices.2
  enforceTorch
    { shop_id := shop_id
      category := category
      title_raw := title
      url := some (urlToString (normalizeUrl urlRaw))
      image_url := imageUrl
      price_cad := safePrice price_cad
      sale_price_cad := safePrice sale_price_cad
      status := status
      variant := none
      sale_mode := none
      unit_type := none
      unit_count := none }

/-! ## HTTP fetcher with retry

A run of `fetchWithRetry` is modelled against an environment giving the
response of each attempt (status plus the numeric value of a present
`Retry-After` header, `none` when absent or not a finite number — the
`Number(h)` parse) and the jitter drawn at each attempt
(`Math.floor(Math.random() * 600)`, a natural number below 600).  The
model returns the outcome together with the list of back-off sleeps, in
milliseconds, in order. -/

structure HttpResponse where
  status : ℕ
  retryAfter : Option ℚ
deriving DecidableEq, Repr

/-- `Response.ok`: status in the 2xx range. -/
def respOk (r : HttpResponse) : Bool := 200 ≤ r.status && r.status ≤ 299

/-- The retryable statuses: 429 or any 5xx. -/
def retryableStatus (s : ℕ) : Bool := s == 429 || (500 ≤ s && s ≤ 599)

/-- `parseRetryAfterSeconds` from the source: the header's numeric value
when present, finite and positive. -/
def parseRetryAfterSeconds (h : Option ℚ) : Option ℚ :=
  match h with
  | none => none
  | some n => if 0 < n then some n else none

/-- The back-off computed for a retryable attempt: `Retry-After` seconds
times 1000 when available (`base || ...`, and the base is positive
whenever present), else `min(60000, 1200 * 2^(attempt-1))`. -/
def backoffMs (attempt : ℕ) (r : HttpResponse) : ℚ :=
  let base : ℚ := match parseRetryAfterSeconds r.retryAfter with
    | some ra => qMulNat ra 1000
    | none => 0
  if base = 0 then ((min 60000 (1200 * 2 ^ (attempt - 1)) : ℕ) : ℚ) else base

/-- Outcome of a `fetchWithRetry` call. -/
inductive FetchOutcome where
  | success (attempt : ℕ)
  | immediateError (attempt : ℕ) (status : ℕ)
  | exhausted (lastStatus : Option ℕ)
deriving DecidableEq, Repr

/-- The retry loop, structurally recursive on the remaining attempts;
`attempt` is the 1-based attempt counter and `last` the status of the
last retryable failure. -/
def fetchLoop (responses : ℕ → HttpResponse) (jitter : ℕ → ℕ) :
    ℕ → ℕ → Option ℕ → FetchOutcome × List ℚ
  | 0, _, last => (.exhausted last, [])
  | fuel + 1, attempt, _ =>
      let r := responses attempt
      if respOk r then (.success attempt, [])
      else if retryableStatus r.status then
        let s := qAdd (backoffMs attempt r) (jitter attempt : ℚ)
        let rest := fetchLoop responses jitter fuel (attempt + 1) (some r.status)
        (rest.1, s :: rest.2)
      else (.immediateError attempt r.status, [])

/-- `fetchWithRetry` from the source (default `maxAttempts = 10`). -/
def fetchWithRetry (responses : ℕ → HttpResponse) (jitter : ℕ → ℕ)
    (maxAttempts : ℕ := 10) : FetchOutcome × List ℚ :=
  fetchLoop responses jitter maxAttempts 1 none

/-! ## Shopify catalog pagination -/

/-- The page URL requested by the catalog walk. -/
def catalogPageUrl (origin : String) (page : ℕ) : String :=
  origin ++ "/products.json?limit=100&page=" ++ toString page

/-- The catalog loop body: `for (let page = 1; page < 200; page++)`,
fuelled by the number of iterations the guard still allows.  Returns the
collected products and the list of requested page URLs. -/
def catalogLoop (origin : String) (pages : ℕ → List PJProduct) :
    ℕ → ℕ → List PJProduct × List String
  | 0, _ => ([], [])
  | fuel + 1, page =>
      let arr := pages page
      if arr.isEmpty then ([], [catalogPageUrl origin page])
      else
        let rest := catalogLoop origin pages fuel (page + 1)
        (arr ++ rest.1, catalogPageUrl origin page :: rest.2)

/-- `fetchShopifyCatalogProducts` from the source: the loop guard
`page < 200` allows pages 1 through 199. -/
def fetchShopifyCatalogProducts (origin : String) (pages : ℕ → List PJProduct) :
    List PJProduct × List String :=
  catalogLoop origin pages 199 1

/-! ## Persistence -/

/-- `upsertIfValid` from the source, with the listing-store effect made
explicit: the returned list holds the upsert calls issued, each with its
conflict key.  `!l.shop_id` and the `trim` test collapse to the same
checks on strings; `!l.price_cad` is falsity of `null` or `0`. -/
def upsertIfValid (l : Option Listing) : Bool × List (Listing × String) :=
  match l with
  | none => (false, [])
  | some l =>
      if l.shop_id = "" || jsTrim l.shop_id = "" then (false, [])
      else
        match l.url with
        | none => (false, [])
        | some u =>
            if u = "" || jsTrim u = "" then (false, [])
            else
              match l.price_cad with
              | none => (false, [])
              | some p =>
                  if p ≤ 0 then (false, [])
                  else (true, [(l, "shop_id,url")])

/-! ## ReefSolution catalog walk -/

/-- The per-product body of `scrapeReefSolutionCatalog`: skip products
that do not look like torch corals, upsert the rest when valid, count the
successful upserts.  Returns the issued upsert calls and the `found`
count. -/
def reefLoop (origin : JsOrigin) (shop_id category : String) :
    List PJProduct → List (Listing × String) × ℕ
  | [] => ([], 0)
  | p :: ps =>
      let rest := reefLoop origin shop_id category ps
      if productLooksTorch p then
        let r := upsertIfValid (buildSingleShopifyListingFromProductsJson origin p shop_id category)
        (r.2 ++ rest.1, (if r.1 then 1 else 0) + rest.2)
      else rest

/-- `scrapeReefSolutionCatalog` from the source, over an already-fetched
product list. -/
def scrapeReefSolutionCatalog (origin : JsOrigin) (shop_id category : String)
    (products : List PJProduct) : List (Listing × String) × ℕ :=
  reefLoop origin shop_id category products

/-! ## Claim C5: torch enforcement -/

/--
C5: `enforceTorch` returns the listing unchanged when the category is not
`"torch"`; for category `"torch"` it sets `sale_mode = "wysiwyg"` when the
title contains `"wysiwyg"` in any letter case, and otherwise sets
`sale_mode = "per_unit"` and `unit_type = "head"`; hence every torch
listing it produces has a non-null `sale_mode`.
-/
theorem claim_C5_enforceTorch (l : Listing) :
    (l.category ≠ "torch" → enforceTorch l = l) ∧
    (l.category = "torch" → isWysiwyg l.title_raw = true →
      enforceTorch l = { l with sale_mode := some "wysiwyg" }) ∧
    (l.category = "torch" → isWysiwyg l.title_raw = false →
      enforceTorch l = { l with sale_mode := some "per_unit", unit_type := some "head" }) ∧
    (l.category = "torch" → (enforceTorch l).sale_mode ≠ none) := by
  refine ⟨fun h => by simp [enforceTorch, h], fun h hw => by simp [enforceTorch, h, hw],
    fun h hw => by simp [enforceTorch, h, hw], fun h => ?_⟩
  by_cases hw : isWysiwyg l.title_raw <;> simp [enforceTorch, h, hw]

/-- C5 witness: the theorem applied at a concrete torch listing. -/
theorem claim_C5_enforceTorch_witness :
    enforceTorch
      { shop_id := "s1", category := "torch", title_raw := "Gold Torch WYSIWYG #3",
        url := some "https://x.com/products/a", image_url := none,
        price_cad := some 50, sale_price_cad := none, status := .available,
        variant := none, sale_mode := none, unit_type := none, unit_count := none } =
      { shop_id := "s1", category := "torch", title_raw := "Gold Torch WYSIWYG #3",
        url := some "https://x.com/products/a", image_url := none,
        price_cad := some 50, sale_price_cad := none, status := .available,
        variant := none, sale_mode := some "wysiwyg", unit_type := none, unit_count := none } := by
  exact (claim_C5_enforceTorch _).2.1 rfl (by decide)

/-! ## Claim C7: upsert validation -/

/--
C7: `upsertIfValid` never persists an invalid candidate: a null input, an
empty or whitespace-only `shop_id` or `url` (including a null `url`), or
a null or non-positive `price_cad` returns `false` with no store call;
every other input issues exactly one upsert, keyed by `"shop_id,url"`,
and returns `true`.
-/
theorem claim_C7_upsertIfValid :
    upsertIfValid none = (false, []) ∧
    (∀ l : Listing,
      (jsTrim l.shop_id = "" ∨ l.url = none ∨ (∃ u, l.url = some u ∧ jsTrim u = "") ∨
        l.price_cad = none ∨ (∃ p, l.price_cad = some p ∧ p ≤ 0)) →
      upsertIfValid (some l) = (false, [])) ∧
    (∀ (l : Listing) (u : String) (p : ℚ), l.url = some u → jsTrim l.shop_id ≠ "" →
      jsTrim u ≠ "" → l.price_cad = some p → 0 < p →
      upsertIfValid (some l) = (true, [(l, "shop_id,url")])) := by
  have hempty : jsTrim "" = "" := rfl
  refine ⟨rfl, ?_, ?_⟩
  · intro l h
    rcases h with h | h | ⟨u, hu, h⟩ | h | ⟨p, hp, h⟩
    · have hsid : (l.shop_id = "" || jsTrim l.shop_id = "") = true := by simp [h]
      simp [upsertIfValid, hsid]
    · by_cases hs : l.shop_id = "" ∨ jsTrim l.shop_id = ""
      · rcases hs with hs | hs <;> simp [upsertIfValid, hs]
      · push_neg at hs
        simp [upsertIfValid, hs.1, hs.2, h]
    · by_cases hs : l.shop_id = "" ∨ jsTrim l.shop_id = ""
      · rcases hs with hs | hs <;> simp [upsertIfValid, hs]
      · push_neg at hs
        simp [upsertIfValid, hs.1, hs.2, hu, h]
    · by_cases hs : l.shop_id = "" ∨ jsTrim l.shop_id = ""
      · rcases hs with hs | hs <;> simp [upsertIfValid, hs]
      · push_neg at hs
        cases hu : l.url with
        | none => simp [upsertIfValid, hs.1, hs.2, hu]
        | some u =>
            by_cases hue : u = "" ∨ jsTrim u = ""
            · rcases hue with hue | hue <;> simp [upsertIfValid, hs.1, hs.2, hu, hue]
            · push_neg at hue
              simp [upsertIfValid, hs.1, hs.2, hu, hue.1, hue.2, h]
    · by_cases hs : l.shop_id = "" ∨ jsTrim l.shop_id = ""
      · rcases hs with hs | hs <;> simp [upsertIfValid, hs]
      · push_neg at hs
        cases hu : l.url with
        | none => simp [upsertIfValid, hs.1, hs.2, hu]
        | some u =>
            by_cases hue : u = "" ∨ jsTrim u = ""
            · rcases hue with hue | hue <;> simp [upsertIfValid, hs.1, hs.2, hu, hue]
            · push_neg at hue
              simp [upsertIfValid, hs.1, hs.2, hu, hue.1, hue.2, hp, h]
  · intro l u p hu hs hut hp hpos
    have hs0 : l.shop_id ≠ "" := fun h => hs (h ▸ hempty)
    have hu0 : u ≠ "" := fun h => hut (h ▸ hempty)
    simp [upsertIfValid, hs0, hs, hu, hu0, hut, hp, not_le.mpr hpos]

/-- C7 witness: a concrete valid listing is upserted exactly once. -/
theorem claim_C7_upsertIfValid_witness :
    upsertIfValid (some
      { shop_id := "shop-1", category := "torch", title_raw := "Gold Torch",
        url := some "https://x.com/products/a", image_url := none,
        price_cad := some 50, sale_price_cad := none, status := .available,
        variant := none, sale_mode := none, unit_type := none, unit_count := none }) =
      (true,
        [({ shop_id := "shop-1", category := "torch", title_raw := "Gold Torch",
            url := some "https://x.com/products/a", image_url := none,
            price_cad := some 50, sale_price_cad := none, status := .available,
            variant := none, sale_mode := none, unit_type := none, unit_count := none },
          "shop_id,url")]) := by
  exact claim_C7_upsertIfValid.2.2 _ "https://x.com/products/a" 50 rfl (by decide) (by decide)
    rfl (by norm_num)

/-! ## Helper lemmas -/

theorem enforceTorch_category (l : Listing) : (enforceTorch l).category = l.category := by
  unfold enforceTorch
  split
  · rfl
  · split <;> rfl

theorem enforceTorch_prices (l : Listing) :
    (enforceTorch l).price_cad = l.price_cad ∧
      (enforceTorch l).sale_price_cad = l.sale_price_cad := by
  unfold enforceTorch
  split
  · exact ⟨rfl, rfl⟩
  · split <;> exact ⟨rfl, rfl⟩

theorem enforceTorch_url (l : Listing) : (enforceTorch l).url = l.url := by
  unfold enforceTorch
  split
  · rfl
  · split <;> rfl

theorem enforceTorch_sale_mode_of_torch (l : Listing) (h : l.category = "torch") :
    (enforceTorch l).sale_mode ≠ none := by
  unfold enforceTorch
  have : ¬ l.category ≠ "torch" := by simp [h]
  simp only [if_neg this]
  split <;> simp

theorem safePrice_pos {o : Option ℚ} {q : ℚ} (h : safePrice o = some q) : 0 < q := by
  cases o with
  | none => simp [safePrice] at h
  | some n =>
      by_cases hn : n ≤ 0
      · simp [safePrice, hn] at h
      · simp [safePrice, hn] at h
        subst h
        exact lt_of_not_le hn


theorem selectBest_eq_none {α : Type} {l : List (ScoredVariant α)} :
    selectBest l = none ↔ l = [] := by
  cases l <;> simp [selectBest]

theorem selectBest1_mem {α : Type} (x : ScoredVariant α) (xs : List (ScoredVariant α)) :
    selectBest1 x xs ∈ x :: xs := by
  induction xs generalizing x with
  | nil => simp [selectBest1]
  | cons y ys ih =>
      simp only [selectBest1]
      by_cases hle : effKey x ≤ effKey (selectBest1 y ys)
      · simp [hle]
      · have := ih y
        simp only [if_neg hle]
        exact List.mem_cons_of_mem _ this

theorem selectBest1_min {α : Type} (x : ScoredVariant α) (xs : List (ScoredVariant α)) :
    ∀ y ∈ x :: xs, effKey (selectBest1 x xs) ≤ effKey y := by
  induction xs generalizing x with
  | nil =>
      intro y hy
      simp at hy
      subst hy
      simp [selectBest1]
  | cons z zs ih =>
      intro y hy
      simp only [selectBest1]
      by_cases hle : effKey x ≤ effKey (selectBest1 z zs)
      · rw [if_pos hle]
        rcases List.mem_cons.mp hy with hy | hy
        · subst hy; exact le_refl _
        · exact le_trans hle (ih z y hy)
      · rw [if_neg hle]
        rcases List.mem_cons.mp hy with hy | hy
        · subst hy; exact le_of_lt (lt_of_not_le hle)
        · exact ih z y hy

theorem selectBest1_first {α : Type} (x : ScoredVariant α) (xs : List (ScoredVariant α)) :
    ∃ l₁ l₂, x :: xs = l₁ ++ selectBest1 x xs :: l₂ ∧
      ∀ y ∈ l₁, effKey (selectBest1 x xs) < effKey y := by
  induction xs generalizing x with
  | nil => exact ⟨[], [], by simp [selectBest1], by simp⟩
  | cons z zs ih =>
      simp only [selectBest1]
      by_cases hle : effKey x ≤ effKey (selectBest1 z zs)
      · exact ⟨[], z :: zs, by simp [hle], by simp⟩
      · rw [if_neg hle]
        obtain ⟨l₁, l₂, hsplit, hlt⟩ := ih z
        refine ⟨x :: l₁, l₂, by rw [List.cons_append, ← hsplit], ?_⟩
        intro y hy
        rcases List.mem_cons.mp hy with hy | hy
        · subst hy; exact lt_of_not_le hle
        · exact hlt y hy

theorem selectBest_mem {α : Type} {l : List (ScoredVariant α)} {b : ScoredVariant α}
    (h : selectBest l = some b) : b ∈ l := by
  cases l with
  | nil => simp [selectBest] at h
  | cons x xs =>
      simp only [selectBest, Option.some.injEq] at h
      exact h ▸ selectBest1_mem x xs

theorem selectBest_min {α : Type} {l : List (ScoredVariant α)} {b : ScoredVariant α}
    (h : selectBest l = some b) : ∀ y ∈ l, effKey b ≤ effKey y := by
  cases l with
  | nil => simp [selectBest] at h
  | cons x xs =>
      simp only [selectBest, Option.some.injEq] at h
      exact h ▸ selectBest1_min x xs

theorem selectBest_first {α : Type} {l : List (ScoredVariant α)} {b : ScoredVariant α}
    (h : selectBest l = some b) :
    ∃ l₁ l₂, l = l₁ ++ b :: l₂ ∧ ∀ y ∈ l₁, effKey b < effKey y := by
  cases l with
  | nil => simp [selectBest] at h
  | cons x xs =>
      simp only [selectBest, Option.some.injEq] at h
      exact h ▸ selectBest1_first x xs

/-- The price/sale relationship established by both scoring steps: a
surviving sale price is positive and strictly below a surviving regular
price. -/
theorem scored_price_rel (compare price : Option ℚ) :
    ∀ q, safePrice (match compare, price with
        | some c, some p => if c > p then some p else none
        | _, _ => none) = some q →
      0 < q ∧ ∃ pq, safePrice (match compare, price with
          | some c, some p => if c > p then some c else price
          | _, _ => price) = some pq ∧ q < pq := by
  intro q hq
  cases compare with
  | none => simp [safePrice] at hq
  | some c =>
      cases price with
      | none => simp [safePrice] at hq
      | some p =>
          simp only at hq ⊢
          by_cases hcp : c > p
          · rw [if_pos hcp] at hq
            have hqp : 0 < q := safePrice_pos hq
            have hpq : p = q := by
              by_cases hp : p ≤ 0
              · simp [safePrice, hp] at hq
              · simpa [safePrice, hp] using hq
            subst hpq
            refine ⟨hqp, c, ?_, hcp⟩
            rw [if_pos hcp]
            have hc : ¬ c ≤ 0 := not_le.mpr (lt_trans hqp hcp)
            simp [safePrice, hc]
          · rw [if_neg hcp] at hq
            simp [safePrice] at hq

/-! ## Claim C9: catalog torch override -/

/--
C9: a catalog product whose title or tags contain `"torch"`, `"torche"`
or `"glabrescens"` in any letter case is emitted with category `"torch"`
(and therefore with torch enforcement applied, so its `sale_mode` is
non-null); every other catalog product keeps the source's configured
category.
-/
theorem claim_C9_catalog_torch_category (origin : JsOrigin) (p : PJProduct)
    (shop_id fallbackCategory : String) (l : Listing)
    (h : buildSingleShopifyListingFromProductsJson origin p shop_id fallbackCategory = some l) :
    (productLooksTorch p = true → l.category = "torch" ∧ l.sale_mode ≠ none) ∧
    (productLooksTorch p = false → l.category = fallbackCategory) := by
  simp only [buildSingleShopifyListingFromProductsJson] at h
  repeat' split at h
  all_goals first
    | exact Option.noConfusion h
    | (rw [Option.some.injEq] at h
       subst h
       refine ⟨fun ht => ⟨?_, ?_⟩, fun hf => ?_⟩ <;>
         first
           | (apply enforceTorch_sale_mode_of_torch; simp_all)
           | simp_all [enforceTorch_category])

/-- C9 witness: the theorem applied at a concrete torch-tagged catalog
product. -/
theorem claim_C9_catalog_torch_category_witness :
    productLooksTorch
      { title := some "Hammer coral", handle := some "hammer-1",
        tags := .str "LPS, torche", variants := [
          { title := none, price := some "25.00", compare_at_price := none }],
        image := none, images := [] } = true ∧
    (({ shop_id := "s1", category := "torch", title_raw := "Hammer coral",
        url := some "https://reefsolution.com/products/hammer-1", image_url := none,
        price_cad := some 25, sale_price_cad := none, status := .available,
        variant := none, sale_mode := some "per_unit", unit_type := some "head",
        unit_count := none } : Listing).category = "torch" ∧
     (({ shop_id := "s1", category := "torch", title_raw := "Hammer coral",
         url := some "https://reefsolution.com/products/hammer-1", image_url := none,
         price_cad := some 25, sale_price_cad := none, status := .available,
         variant := none, sale_mode := some "per_unit", unit_type := some "head",
         unit_count := none } : Listing).sale_mode ≠ none)) := by
  refine ⟨by decide, ?_⟩
  exact (claim_C9_catalog_torch_category
    { scheme := "https", host := "reefsolution.com" }
    { title := some "Hammer coral", handle := some "hammer-1",
      tags := .str "LPS, torche", variants := [
        { title := none, price := some "25.00", compare_at_price := none }],
      image := none, images := [] } "s1" "zoa" _ (by decide)).1 (by decide)

/-! ## Claim C10: ReefSolution catalog persists only torch-looking products -/

/--
C10: the ReefSolution catalog walk upserts only listings built from
products that look like torch corals; every upsert call stems from a
torch-looking product, and the reported `found` count counts exactly the
torch-looking products whose listing passed validation.
-/
theorem claim_C10_reef_only_torch (origin : JsOrigin) (shop_id category : String)
    (products : List PJProduct) :
    (scrapeReefSolutionCatalog origin shop_id category products).1 =
      ((products.filter productLooksTorch).map (fun p =>
        (upsertIfValid (buildSingleShopifyListingFromProductsJson origin p shop_id category)).2)).flatten ∧
    (scrapeReefSolutionCatalog origin shop_id category products).2 =
      (products.filter productLooksTorch).countP (fun p =>
        (upsertIfValid (buildSingleShopifyListingFromProductsJson origin p shop_id category)).1) ∧
    ∀ c ∈ (scrapeReefSolutionCatalog origin shop_id category products).1,
      ∃ p ∈ products, productLooksTorch p = true ∧
        c ∈ (upsertIfValid (buildSingleShopifyListingFromProductsJson origin p shop_id category)).2 := by
  have main : ∀ ps : List PJProduct,
      (reefLoop origin shop_id category ps).1 =
        ((ps.filter productLooksTorch).map (fun p =>
          (upsertIfValid (buildSingleShopifyListingFromProductsJson origin p shop_id category)).2)).flatten ∧
      (reefLoop origin shop_id category ps).2 =
        (ps.filter productLooksTorch).countP (fun p =>
          (upsertIfValid (buildSingleShopifyListingFromProductsJson origin p shop_id category)).1) := by
    intro ps
    induction ps with
    | nil => simp [reefLoop]
    | cons p ps ih =>
        by_cases hp : productLooksTorch p
        · simp [reefLoop, hp, List.countP_cons, ih.1, ih.2, Nat.add_comm]
        · simp only [reefLoop, hp, Bool.false_eq_true, if_false]
          rw [List.filter_cons_of_neg (by simp [hp])]
          exact ih
  refine ⟨(main products).1, (main products).2, ?_⟩
  intro c hc
  simp only [scrapeReefSolutionCatalog] at hc
  rw [(main products).1] at hc
  rw [List.mem_flatten] at hc
  obtain ⟨calls, hcalls, hcmem⟩ := hc
  rw [List.mem_map] at hcalls
  obtain ⟨p, hpmem, hpeq⟩ := hcalls
  rw [List.mem_filter] at hpmem
  exact ⟨p, hpmem.1, hpmem.2, hpeq ▸ hcmem⟩

/-! ## Claim C8: catalog pagination -/

theorem catalogLoop_all_nonempty (origin : String) (pages : ℕ → List PJProduct) :
    ∀ (fuel start : ℕ), (∀ i, start ≤ i → i < start + fuel → pages i ≠ []) →
      catalogLoop origin pages fuel start =
        (((List.range' start fuel).map pages).flatten,
         (List.range' start fuel).map (catalogPageUrl origin)) := by
  intro fuel
  induction fuel with
  | zero => intro start h; simp [catalogLoop]
  | succ n ih =>
      intro start h
      have hs : pages start ≠ [] := h start (le_refl _) (by omega)
      simp only [catalogLoop, List.isEmpty_iff, hs, if_false]
      rw [ih (start + 1) (fun i h1 h2 => h i (by omega) (by omega))]
      simp [List.range'_succ]

theorem catalogLoop_first_empty (origin : String) (pages : ℕ → List PJProduct) :
    ∀ (fuel start k : ℕ), start ≤ k → k < start + fuel → pages k = [] →
      (∀ i, start ≤ i → i < k → pages i ≠ []) →
      catalogLoop origin pages fuel start =
        (((List.range' start (k - start)).map pages).flatten,
         (List.range' start (k - start + 1)).map (catalogPageUrl origin)) := by
  intro fuel
  induction fuel with
  | zero => intro start k h1 h2; omega
  | succ n ih =>
      intro start k h1 h2 hk hne
      rcases Nat.eq_or_lt_of_le h1 with heq | hlt
      · subst heq
        simp [catalogLoop, hk]
      · have hs : pages start ≠ [] := hne start (le_refl _) hlt
        simp only [catalogLoop, List.isEmpty_iff, hs, if_false]
        rw [ih (start + 1) k (by omega) (by omega) hk (fun i ha hb => hne i (by omega) hb)]
        have h3 : k - start = (k - (start + 1)) + 1 := by omega
        rw [h3]
        simp [List.range'_succ]

/--
C8 (amended): catalog-mode extraction requests
`origin + "/products.json?limit=100&page=N"` for `N = 1, 2, 3, …`, stops
at the first page whose products array is empty, collecting the products
of all earlier pages in order; when no page up to the cap is empty it
stops after 199 pages (the loop guard is `page < 200`), not 200.
-/
theorem claim_C8_catalog_pagination (origin : String) (pages : ℕ → List PJProduct) :
    (∀ k, 1 ≤ k → k ≤ 199 → pages k = [] → (∀ i, 1 ≤ i → i < k → pages i ≠ []) →
      fetchShopifyCatalogProducts origin pages =
        (((List.range' 1 (k - 1)).map pages).flatten,
         (List.range' 1 k).map (catalogPageUrl origin))) ∧
    ((∀ i, 1 ≤ i → i ≤ 199 → pages i ≠ []) →
      fetchShopifyCatalogProducts origin pages =
        (((List.range' 1 199).map pages).flatten,
         (List.range' 1 199).map (catalogPageUrl origin))) := by
  constructor
  · intro k h1 h2 hk hne
    unfold fetchShopifyCatalogProducts
    rw [catalogLoop_first_empty origin pages 199 1 k h1 (by omega) hk hne]
    have : k - 1 + 1 = k := by omega
    rw [this]
  · intro h
    unfold fetchShopifyCatalogProducts
    exact catalogLoop_all_nonempty origin pages 199 1 (fun i h1 h2 => h i h1 (by omega))

/-- C8 witness: the theorem applied with every page empty — the walk
requests exactly page 1 and collects nothing. -/
theorem claim_C8_catalog_pagination_witness :
    fetchShopifyCatalogProducts "https://x.com" (fun _ => []) =
      ([], ["https://x.com/products.json?limit=100&page=1"]) := by
  have h := (claim_C8_catalog_pagination "https://x.com" (fun _ => [])).1 1
    (by decide) (by decide) rfl (fun i h1 h2 => absurd (h1.trans_lt h2) (lt_irrefl 1))
  rw [h]
  rfl

/-- C8 counterexample: with no page ever empty, the walk requests 199
pages — the claimed hard cap of 200 pages is never reached. -/
theorem claim_C8_counterexample :
    ((fetchShopifyCatalogProducts "https://x.com"
        (fun _ => [{ title := none, handle := none, tags := .missing,
                     variants := [], image := none, images := [] }])).2).length = 199 ∧
    ((fetchShopifyCatalogProducts "https://x.com"
        (fun _ => [{ title := none, handle := none, tags := .missing,
                     variants := [], image := none, images := [] }])).2).length ≠ 200 := by
  have h : ((fetchShopifyCatalogProducts "https://x.com"
      (fun _ => [{ title := none, handle := none, tags := .missing,
                   variants := [], image := none, images := [] }])).2).length = 199 := by
    rw [(claim_C8_catalog_pagination "https://x.com" _).2 (fun i h1 h2 => by simp)]
    simp
  exact ⟨h, by rw [h]; decide⟩

/-! ## Claim C3: fetch retry and backoff -/

theorem fetchLoop_succ_eq (responses : ℕ → HttpResponse) (jitter : ℕ → ℕ)
    (fuel attempt : ℕ) (last : Option ℕ) :
    fetchLoop responses jitter (fuel + 1) attempt last =
      (if respOk (responses attempt) then ((.success attempt : FetchOutcome), [])
       else if retryableStatus (responses attempt).status then
         ((fetchLoop responses jitter fuel (attempt + 1) (some (responses attempt).status)).1,
          qAdd (backoffMs attempt (responses attempt)) ((jitter attempt : ℕ) : ℚ) ::
            (fetchLoop responses jitter fuel (attempt + 1) (some (responses attempt).status)).2)
       else ((.immediateError attempt (responses attempt).status : FetchOutcome), [])) := rfl

theorem fetchLoop_exhausted_spec (responses : ℕ → HttpResponse) (jitter : ℕ → ℕ) :
    ∀ fuel attempt last, 1 ≤ fuel →
      (∀ i, attempt ≤ i → i < attempt + fuel →
        respOk (responses i) = false ∧ retryableStatus (responses i).status = true) →
      fetchLoop responses jitter fuel attempt last =
        (.exhausted (some (responses (attempt + fuel - 1)).status),
         (List.range' attempt fuel).map
           (fun a => qAdd (backoffMs a (responses a)) ((jitter a : ℕ) : ℚ))) := by
  intro fuel
  induction fuel with
  | zero => intro attempt last h1 h; omega
  | succ n ih =>
      intro attempt last h1 h
      have ha := h attempt (le_refl _) (by omega)
      rw [fetchLoop_succ_eq]
      rw [ha.1, ha.2]
      cases n with
      | zero => simp [fetchLoop, List.range'_succ]
      | succ m =>
          rw [ih (attempt + 1) (some (responses attempt).status) (by omega)
            (fun i hi1 hi2 => h i (by omega) (by omega))]
          have harith : attempt + 1 + (m + 1) - 1 = attempt + (m + 1 + 1) - 1 := by omega
          rw [harith]
          simp [List.range'_succ]

theorem fetchLoop_immediate_spec (responses : ℕ → HttpResponse) (jitter : ℕ → ℕ) :
    ∀ fuel attempt last k, attempt ≤ k → k < attempt + fuel →
      (∀ i, attempt ≤ i → i < k →
        respOk (responses i) = false ∧ retryableStatus (responses i).status = true) →
      respOk (responses k) = false → retryableStatus (responses k).status = false →
      fetchLoop responses jitter fuel attempt last =
        (.immediateError k (responses k).status,
         (List.range' attempt (k - attempt)).map
           (fun a => qAdd (backoffMs a (responses a)) ((jitter a : ℕ) : ℚ))) := by
  intro fuel
  induction fuel with
  | zero => intro attempt last k h1 h2; omega
  | succ n ih =>
      intro attempt last k h1 h2 hpre hk1 hk2
      rcases Nat.eq_or_lt_of_le h1 with heq | hlt
      · subst heq
        rw [fetchLoop_succ_eq, hk1, hk2]
        simp
      · have ha := hpre attempt (le_refl _) hlt
        rw [fetchLoop_succ_eq, ha.1, ha.2]
        rw [ih (attempt + 1) (some (responses attempt).status) k (by omega) (by omega)
          (fun i hi1 hi2 => hpre i (by omega) hi2) hk1 hk2]
        have harith : k - attempt = (k - (attempt + 1)) + 1 := by omega
        rw [harith]
        simp [List.range'_succ]

theorem fetchLoop_success_spec (responses : ℕ → HttpResponse) (jitter : ℕ → ℕ) :
    ∀ fuel attempt last k, attempt ≤ k → k < attempt + fuel →
      (∀ i, attempt ≤ i → i < k →
        respOk (responses i) = false ∧ retryableStatus (responses i).status = true) →
      respOk (responses k) = true →
      fetchLoop responses jitter fuel attempt last =
        (.success k,
         (List.range' attempt (k - attempt)).map
           (fun a => qAdd (backoffMs a (responses a)) ((jitter a : ℕ) : ℚ))) := by
  intro fuel
  induction fuel with
  | zero => intro attempt last k h1 h2; omega
  | succ n ih =>
      intro attempt last k h1 h2 hpre hk
      rcases Nat.eq_or_lt_of_le h1 with heq | hlt
      · subst heq
        rw [fetchLoop_succ_eq, hk]
        simp
      · have ha := hpre attempt (le_refl _) hlt
        rw [fetchLoop_succ_eq, ha.1, ha.2]
        rw [ih (attempt + 1) (some (responses attempt).status) k (by omega) (by omega)
          (fun i hi1 hi2 => hpre i (by omega) hi2) hk]
        have harith : k - attempt = (k - (attempt + 1)) + 1 := by omega
        rw [harith]
        simp [List.range'_succ]

/--
C3: `fetchWithRetry` sleeps before retrying an attempt that returned 429
or 5xx — for `Retry-After × 1000` ms when that header is present and
positive, else `min(60000, 1200·2^(attempt-1))` ms, plus a jitter below
600 ms; any other non-2xx status fails immediately without retrying; and
after `maxAttempts` retryable failures the call fails carrying the last
retryable status.
-/
theorem claim_C3_fetchWithRetry (responses : ℕ → HttpResponse) (jitter : ℕ → ℕ)
    (maxAttempts : ℕ) (hj : ∀ a, jitter a < 600) :
    (∀ s, retryableStatus s = true ↔ (s = 429 ∨ (500 ≤ s ∧ s ≤ 599))) ∧
    (∀ r, respOk r = true ↔ (200 ≤ r.status ∧ r.status ≤ 299)) ∧
    (∀ h ra, parseRetryAfterSeconds h = some ra ↔ (h = some ra ∧ 0 < ra)) ∧
    (∀ a r ra, parseRetryAfterSeconds r.retryAfter = some ra →
       backoffMs a r = ra * 1000) ∧
    (∀ a r, parseRetryAfterSeconds r.retryAfter = none →
       backoffMs a r = min 60000 (1200 * (2 : ℚ) ^ (a - 1))) ∧
    (∀ a, backoffMs a (responses a) ≤
        qAdd (backoffMs a (responses a)) ((jitter a : ℕ) : ℚ) ∧
      qAdd (backoffMs a (responses a)) ((jitter a : ℕ) : ℚ) <
        backoffMs a (responses a) + 600) ∧
    (1 ≤ maxAttempts →
      (∀ i, 1 ≤ i → i ≤ maxAttempts →
        respOk (responses i) = false ∧ retryableStatus (responses i).status = true) →
      fetchWithRetry responses jitter maxAttempts =
        (.exhausted (some (responses maxAttempts).status),
         (List.range' 1 maxAttempts).map
           (fun a => qAdd (backoffMs a (responses a)) ((jitter a : ℕ) : ℚ)))) ∧
    (∀ k, 1 ≤ k → k ≤ maxAttempts →
      (∀ i, 1 ≤ i → i < k →
        respOk (responses i) = false ∧ retryableStatus (responses i).status = true) →
      respOk (responses k) = false → retryableStatus (responses k).status = false →
      fetchWithRetry responses jitter maxAttempts =
        (.immediateError k (responses k).status,
         (List.range' 1 (k - 1)).map
           (fun a => qAdd (backoffMs a (responses a)) ((jitter a : ℕ) : ℚ)))) ∧
    (∀ k, 1 ≤ k → k ≤ maxAttempts →
      (∀ i, 1 ≤ i → i < k →
        respOk (responses i) = false ∧ retryableStatus (responses i).status = true) →
      respOk (responses k) = true →
      fetchWithRetry responses jitter maxAttempts =
        (.success k,
         (List.range' 1 (k - 1)).map
           (fun a => qAdd (backoffMs a (responses a)) ((jitter a : ℕ) : ℚ)))) := by
  refine ⟨?_, ?_, ?_, ?_, ?_, ?_, ?_, ?_, ?_⟩
  · intro s
    simp [retryableStatus, Bool.or_eq_true, Bool.and_eq_true, beq_iff_eq, decide_eq_true_eq]
  · intro r
    simp [respOk, Bool.and_eq_true, decide_eq_true_eq]
  · intro h ra
    cases h with
    | none => simp [parseRetryAfterSeconds]
    | some n =>
        by_cases hn : 0 < n
        · simp only [parseRetryAfterSeconds, if_pos hn, Option.some.injEq]
          constructor
          · intro he; subst he; exact ⟨rfl, hn⟩
          · intro he; exact he.1.symm ▸ rfl
        · simp only [parseRetryAfterSeconds, if_neg hn]
          constructor
          · intro he; exact absurd he (by simp)
          · intro he
            rw [Option.some.injEq] at he
            exact absurd (he.1 ▸ he.2) hn
  · intro a r ra hra
    have hpos : 0 < ra := by
      cases hh : r.retryAfter with
      | none => rw [hh] at hra; simp [parseRetryAfterSeconds] at hra
      | some n =>
          rw [hh] at hra
          by_cases hn : 0 < n
          · simp only [parseRetryAfterSeconds, if_pos hn, Option.some.injEq] at hra
            exact hra ▸ hn
          · simp [parseRetryAfterSeconds, if_neg hn] at hra
    simp only [backoffMs, hra]
    rw [qMulNat_eq]
    rw [if_neg]
    · norm_num
    · have : (0 : ℚ) < ra * 1000 := by positivity
      exact ne_of_gt this
  · intro a r hnone
    simp only [backoffMs, hnone, if_true]
    push_cast
    rfl
  · intro a
    rw [qAdd_eq]
    constructor
    · exact le_add_of_nonneg_right (by positivity)
    · have : ((jitter a : ℕ) : ℚ) < 600 := by exact_mod_cast hj a
      exact add_lt_add_left this _
  · intro h1 h
    unfold fetchWithRetry
    have := fetchLoop_exhausted_spec responses jitter maxAttempts 1 none h1
      (fun i hi1 hi2 => h i hi1 (by omega))
    rw [this]
    have harith : 1 + maxAttempts - 1 = maxAttempts := by omega
    rw [harith]
  · intro k h1 h2 hpre hk1 hk2
    unfold fetchWithRetry
    exact fetchLoop_immediate_spec responses jitter maxAttempts 1 none k h1 (by omega)
      (fun i hi1 hi2 => hpre i hi1 hi2) hk1 hk2
  · intro k h1 h2 hpre hk
    unfold fetchWithRetry
    exact fetchLoop_success_spec responses jitter maxAttempts 1 none k h1 (by omega)
      (fun i hi1 hi2 => hpre i hi1 hi2) hk

/-- The retry scenario of the spec: attempt 1 answers 429 with
`Retry-After: 2`, attempt 2 succeeds. -/
def retryScenario : ℕ → HttpResponse := fun a =>
  if a = 1 then { status := 429, retryAfter := some 2 } else { status := 200, retryAfter := none }

/-- C3 witness: the theorem applied to the `Retry-After: 2` scenario — the
call sleeps `2000 + jitter` ms (at least 2000 ms) and succeeds on
attempt 2. -/
theorem claim_C3_fetchWithRetry_witness :
    fetchWithRetry retryScenario (fun _ => 100) 10 =
      (.success 2, [qAdd (qMulNat 2 1000) 100]) ∧
    (2000 : ℚ) ≤ qAdd (qMulNat 2 1000) 100 := by
  have h := (claim_C3_fetchWithRetry retryScenario (fun _ => 100) 10
      (fun a => by show (100 : ℕ) < 600; decide)).2.2.2.2.2.2.2.2 2 (by decide) (by decide)
      (fun i h1 h2 => by
        have : i = 1 := by omega
        subst this
        exact ⟨by decide, by decide⟩)
      (by decide)
  refine ⟨?_, by decide⟩
  rw [h]
  have hb : backoffMs 1 (retryScenario 1) = qMulNat 2 1000 := by decide
  have hjv : (((100 : ℕ) : ℚ)) = (100 : ℚ) := by norm_num
  simp [List.range', hb, hjv]

/-! ## Claim C6: price invariant -/

/-- The price invariant of the spec: price fields are null or strictly
positive, and a present sale price implies a present, strictly larger
regular price. -/
def priceInvariant (l : Listing) : Prop :=
  (∀ p, l.price_cad = some p → 0 < p) ∧
  (∀ s, l.sale_price_cad = some s → 0 < s ∧ ∃ p, l.price_cad = some p ∧ s < p)

theorem scoreVariantJs_invariant (v : JsVariant) :
    (∀ p, (scoreVariantJs v).price_cad = some p → 0 < p) ∧
    (∀ s, (scoreVariantJs v).sale_price_cad = some s →
      0 < s ∧ ∃ p, (scoreVariantJs v).price_cad = some p ∧ s < p) := by
  refine ⟨fun p hp => safePrice_pos hp, fun s hs => ?_⟩
  exact scored_price_rel (v.compare_at_price.map (fun n => qDivNat n 100))
    (v.price.map (fun n => qDivNat n 100)) s hs

theorem scoreVariantPJ_invariant (v : PJVariant) :
    (∀ p, (scoreVariantPJ v).price_cad = some p → 0 < p) ∧
    (∀ s, (scoreVariantPJ v).sale_price_cad = some s →
      0 < s ∧ ∃ p, (scoreVariantPJ v).price_cad = some p ∧ s < p) := by
  refine ⟨fun p hp => safePrice_pos hp, fun s hs => ?_⟩
  exact scored_price_rel
    (match v.compare_at_price with | some str => priceNum str | none => none)
    (match v.price with | some str => priceNum str | none => none) s hs

theorem safePrice_idem_some {o : Option ℚ} {q : ℚ} (h : safePrice o = some q) :
    safePrice (some q) = some q := by
  have := safePrice_pos h
  simp [safePrice, not_le.mpr this]

/-- The scored-variant invariant transported to the fallback record. -/

theorem shopifyAnalyticsResult_invariant (page : ShopifyFallbackPage) (title : String)
    (imageUrl : Option String) (r : ShopifyHtmlFallback)
    (h : shopifyAnalyticsResult page title imageUrl = some r) :
    (∀ p, r.price_cad = some p → 0 < p) ∧
    (∀ s, r.sale_price_cad = some s → 0 < s ∧ ∃ p, r.price_cad = some p ∧ s < p) := by
  simp only [shopifyAnalyticsResult] at h
  split at h
  · exact Option.noConfusion h
  · exact Option.noConfusion h
  · rename_i variants hne heqA
    split at h
    · exact Option.noConfusion h
    · rename_i best hsel
      rw [Option.some.injEq] at h
      subst h
      have hmem : best ∈ List.map scoreVariantJs variants := by
        have hp := selectBest_mem hsel
        revert hp
        simp only [shopifyPool]
        split
        · exact fun hm => (List.mem_filter.mp hm).1
        · exact fun hm => (List.mem_filter.mp hm).1
      obtain ⟨v, hv, hveq⟩ := List.mem_map.mp hmem
      subst hveq
      exact scoreVariantJs_invariant v

theorem parseShopifyHtmlFallback_invariant (page : ShopifyFallbackPage) :
    (∀ p, (parseShopifyHtmlFallback page).price_cad = some p → 0 < p) ∧
    (∀ s, (parseShopifyHtmlFallback page).sale_price_cad = some s →
      0 < s ∧ ∃ p, (parseShopifyHtmlFallback page).price_cad = some p ∧ s < p) := by
  simp only [parseShopifyHtmlFallback]
  cases hA : shopifyAnalyticsResult page
      (firstTruthy [normStr page.h1Text, normStr page.docTitle, "Untitled"])
      (jsOrS page.ogImageProp (jsOrS page.ogImageName none)) with
  | some r =>
      simpa using shopifyAnalyticsResult_invariant page _ _ r hA
  | none =>
      refine ⟨fun p hp => safePrice_pos (by simpa using hp), fun s hs => ?_⟩
      simp at hs

theorem wooPrices_invariant (sale regular single : Option ℚ) :
    (∀ p, safePrice (wooPrices sale regular single).1 = some p → 0 < p) ∧
    (∀ s, safePrice (wooPrices sale regular single).2 = some s →
      0 < s ∧ ∃ p, safePrice (wooPrices sale regular single).1 = some p ∧ s < p) := by
  refine ⟨fun p hp => safePrice_pos hp, fun s hs => ?_⟩
  have hspos := safePrice_pos hs
  refine ⟨hspos, ?_⟩
  simp only [wooPrices] at hs ⊢
  split at hs
  · rename_i hOn
    rw [if_pos hOn]
    cases hsale : sale with
    | none => rw [hsale] at hs; simp [safePrice] at hs
    | some sv =>
        rw [hsale] at hs
        have hsv : sv = s := by
          by_cases h0 : sv ≤ 0
          · simp [safePrice, h0] at hs
          · simpa [safePrice, h0] using hs
        subst hsv
        rw [hsale] at hOn
        cases hreg : regular with
        | none => rw [hreg] at hOn; simp at hOn
        | some rv =>
            rw [hreg] at hOn
            simp only [Bool.and_eq_true, decide_eq_true_eq, Option.getD_some] at hOn
            have hlt : sv < rv := hOn.2
            refine ⟨rv, ?_, hlt⟩
            simp [safePrice, not_le.mpr (lt_trans hspos hlt)]
  · simp [safePrice] at hs

theorem buildSingleShopifyListing_invariant (u : JsUrl) (product : JsProduct)
    (shop_id category : String) (l : Listing)
    (h : buildSingleShopifyListing u product shop_id category = some l) :
    priceInvariant l := by
  simp only [buildSingleShopifyListing] at h
  by_cases hv : product.variants.isEmpty = true
  · rw [if_pos hv] at h
    exact Option.noConfusion h
  · rw [if_neg hv] at h
    cases hsel : selectBest (shopifyPool (List.map scoreVariantJs product.variants)) with
    | none =>
        rw [hsel] at h
        exact Option.noConfusion h
    | some best =>
        rw [hsel] at h
        simp only [Option.some.injEq] at h
        subst h
        rw [priceInvariant, (enforceTorch_prices _).1, (enforceTorch_prices _).2]
        have hmem : best ∈ List.map scoreVariantJs product.variants := by
          have hp := selectBest_mem hsel
          revert hp
          simp only [shopifyPool]
          split
          · exact fun hm => (List.mem_filter.mp hm).1
          · exact fun hm => (List.mem_filter.mp hm).1
        obtain ⟨v, hv', hveq⟩ := List.mem_map.mp hmem
        subst hveq
        exact ⟨(scoreVariantJs_invariant v).1, (scoreVariantJs_invariant v).2⟩

theorem buildSingleShopifyListingFromProductsJson_invariant (origin : JsOrigin)
    (p : PJProduct) (shop_id fallbackCategory : String) (l : Listing)
    (h : buildSingleShopifyListingFromProductsJson origin p shop_id fallbackCategory = some l) :
    priceInvariant l := by
  simp only [buildSingleShopifyListingFromProductsJson] at h
  by_cases hh : jsTrim (if optStrTruthy p.handle = true then p.handle.getD "" else "") = ""
  · rw [if_pos hh] at h
    exact Option.noConfusion h
  · rw [if_neg hh] at h
    by_cases hv : p.variants.isEmpty = true
    · rw [if_pos hv] at h
      exact Option.noConfusion h
    · rw [if_neg hv] at h
      cases hsel : selectBest (List.filter (fun x => x.eff.isSome)
          (List.map scoreVariantPJ p.variants)) with
      | none =>
          rw [hsel] at h
          exact Option.noConfusion h
      | some best =>
          rw [hsel] at h
          simp only [Option.some.injEq] at h
          subst h
          rw [priceInvariant, (enforceTorch_prices _).1, (enforceTorch_prices _).2]
          have hmem : best ∈ List.map scoreVariantPJ p.variants :=
            (List.mem_filter.mp (selectBest_mem hsel)).1
          obtain ⟨v, hv', hveq⟩ := List.mem_map.mp hmem
          subst hveq
          exact ⟨(scoreVariantPJ_invariant v).1, (scoreVariantPJ_invariant v).2⟩

theorem parseHtmlProduct_invariant (urlRaw : JsUrl) (page : WooPage)
    (shop_id category : String) :
    priceInvariant (parseHtmlProduct urlRaw page shop_id category) := by
  simp only [parseHtmlProduct]
  rw [priceInvariant, (enforceTorch_prices _).1, (enforceTorch_prices _).2]
  exact ⟨(wooPrices_invariant _ _ _).1, (wooPrices_invariant _ _ _).2⟩

theorem buildShopifyFallbackListing_invariant (url : JsUrl) (page : ShopifyFallbackPage)
    (shop_id category : String) :
    priceInvariant
      (buildShopifyFallbackListing url (parseShopifyHtmlFallback page) shop_id category) := by
  have hfb := parseShopifyHtmlFallback_invariant page
  unfold buildShopifyFallbackListing
  rw [priceInvariant, (enforceTorch_prices _).1, (enforceTorch_prices _).2]
  refine ⟨fun p hp => safePrice_pos hp, fun s hs => ?_⟩
  have hspos := safePrice_pos hs
  cases hsale : (parseShopifyHtmlFallback page).sale_price_cad with
  | none => rw [hsale] at hs; simp [safePrice] at hs
  | some s0 =>
      rw [hsale] at hs
      have hs0 : s0 = s := by
        by_cases h0 : s0 ≤ 0
        · simp [safePrice, h0] at hs
        · simpa [safePrice, h0] using hs
      subst hs0
      obtain ⟨hpos, p0, hp0, hlt⟩ := hfb.2 s0 hsale
      refine ⟨hpos, p0, ?_, hlt⟩
      rw [hp0]
      simp [safePrice, not_le.mpr (lt_trans hpos hlt)]

/--
C6: every listing constructed by any extractor — the Shopify `.js`
extractor, the `products.json` catalog extractor, the Shopify HTML
fallback listing and the WooCommerce HTML extractor — has `price_cad`
and `sale_price_cad` each null or strictly positive, and a non-null
`sale_price_cad` implies a non-null `price_cad` that strictly exceeds
it; violating inputs yield `sale_price_cad = null`.
-/
theorem claim_C6_price_invariant :
    (∀ (u : JsUrl) (product : JsProduct) (shop_id category : String) (l : Listing),
      buildSingleShopifyListing u product shop_id category = some l → priceInvariant l) ∧
    (∀ (origin : JsOrigin) (p : PJProduct) (shop_id category : String) (l : Listing),
      buildSingleShopifyListingFromProductsJson origin p shop_id category = some l →
        priceInvariant l) ∧
    (∀ (u : JsUrl) (page : ShopifyFallbackPage) (shop_id category : String),
      priceInvariant
        (buildShopifyFallbackListing u (parseShopifyHtmlFallback page) shop_id category)) ∧
    (∀ (u : JsUrl) (page : WooPage) (shop_id category : String),
      priceInvariant (parseHtmlProduct u page shop_id category)) :=
  ⟨fun u product sid cat l h => buildSingleShopifyListing_invariant u product sid cat l h,
   fun origin p sid cat l h =>
     buildSingleShopifyListingFromProductsJson_invariant origin p sid cat l h,
   fun u page sid cat => buildShopifyFallbackListing_invariant u page sid cat,
   fun u page sid cat => parseHtmlProduct_invariant u page sid cat⟩

/-- C6 witness: the theorem applied at a concrete discounted Shopify
product (compare-at 60.00, price 50.00). -/
theorem claim_C6_price_invariant_witness :
    buildSingleShopifyListing
      { scheme := "https", host := "x.com", pathname := "/products/a", params := [] }
      { title := some "Gold Torch", variants := [
          { price := some 5000, compare_at_price := some 6000, available := true,
            title := some "Default Title", featured_image := none },
          { price := some 4000, compare_at_price := none, available := false,
            title := some "Small", featured_image := none }],
        featured_image := some "img", images := [] } "shop1" "torch" =
      some { shop_id := "shop1", category := "torch", title_raw := "Gold Torch",
             url := some "https://x.com/products/a", image_url := some "img",
             price_cad := some 60, sale_price_cad := some 50, status := .available,
             variant := none, sale_mode := some "per_unit", unit_type := some "head",
             unit_count := none } ∧
    (0 : ℚ) < 50 ∧
    ({ shop_id := "shop1", category := "torch", title_raw := "Gold Torch",
       url := some "https://x.com/products/a", image_url := some "img",
       price_cad := some 60, sale_price_cad := some 50, status := .available,
       variant := none, sale_mode := some "per_unit", unit_type := some "head",
       unit_count := none } : Listing).price_cad = some 60 ∧
    (50 : ℚ) < 60 := by
  have hb : buildSingleShopifyListing
      { scheme := "https", host := "x.com", pathname := "/products/a", params := [] }
      { title := some "Gold Torch", variants := [
          { price := some 5000, compare_at_price := some 6000, available := true,
            title := some "Default Title", featured_image := none },
          { price := some 4000, compare_at_price := none, available := false,
            title := some "Small", featured_image := none }],
        featured_image := some "img", images := [] } "shop1" "torch" =
      some { shop_id := "shop1", category := "torch", title_raw := "Gold Torch",
             url := some "https://x.com/products/a", image_url := some "img",
             price_cad := some 60, sale_price_cad := some 50, status := .available,
             variant := none, sale_mode := some "per_unit", unit_type := some "head",
             unit_count := none } := by decide
  have hinv := claim_C6_price_invariant.1 _ _ _ _ _ hb
  obtain ⟨hpos, p, hp, hlt⟩ := hinv.2 50 rfl
  have h60 : p = 60 := by
    have : some p = some (60 : ℚ) := hp.symm.trans rfl
    rw [Option.some.injEq] at this
    exact this.symm ▸ rfl
  exact ⟨hb, hpos, rfl, h60 ▸ hlt⟩

/-! ## Claim C1: Shopify variant selection -/

theorem enforceTorch_status (l : Listing) : (enforceTorch l).status = l.status := by
  unfold enforceTorch
  split
  · rfl
  · split <;> rfl

theorem shopifyPool_ne_nil_iff (scored : List (ScoredVariant JsVariant)) :
    shopifyPool scored ≠ [] ↔ ∃ x ∈ scored, x.eff.isSome = true := by
  simp only [shopifyPool]
  split
  · rename_i hempty
    rw [List.isEmpty_iff] at hempty
    constructor
    · intro hne
      obtain ⟨x, hx⟩ := List.exists_mem_of_ne_nil _ hne
      have := List.mem_filter.mp hx
      exact ⟨x, this.1, this.2⟩
    · intro hex hnil
      obtain ⟨x, hx, hx2⟩ := hex
      have : x ∈ List.filter (fun x => x.eff.isSome) scored :=
        List.mem_filter.mpr ⟨hx, hx2⟩
      rw [hnil] at this
      exact absurd this (List.not_mem_nil x)
  · rename_i hempty
    rw [List.isEmpty_iff] at hempty
    constructor
    · intro hne
      obtain ⟨x, hx⟩ := List.exists_mem_of_ne_nil _ hempty
      have := List.mem_filter.mp hx
      exact ⟨x, this.1, (Bool.and_eq_true _ _ |>.mp this.2).2⟩
    · intro hex
      exact hempty

theorem buildSingleShopifyListing_isSome_iff (u : JsUrl) (product : JsProduct)
    (shop_id category : String) :
    (buildSingleShopifyListing u product shop_id category).isSome = true ↔
      (product.variants ≠ [] ∧
        shopifyPool (product.variants.map scoreVariantJs) ≠ []) := by
  simp only [buildSingleShopifyListing]
  by_cases hv : product.variants.isEmpty = true
  · rw [if_pos hv]
    rw [List.isEmpty_iff] at hv
    simp [hv]
  · rw [if_neg hv]
    rw [List.isEmpty_iff] at hv
    cases hsel : selectBest (shopifyPool (List.map scoreVariantJs product.variants)) with
    | none =>
        simp [selectBest_eq_none.mp hsel, hv]
    | some best =>
        have hne : shopifyPool (List.map scoreVariantJs product.variants) ≠ [] := by
          intro hnil
          rw [hnil] at hsel
          exact Option.noConfusion hsel
        simp [hv, hne]

theorem buildSingleShopifyListing_selection (u : JsUrl) (product : JsProduct)
    (shop_id category : String) (l : Listing)
    (h : buildSingleShopifyListing u product shop_id category = some l) :
    ∃ best pre post,
      shopifyPool (product.variants.map scoreVariantJs) = pre ++ best :: post ∧
      (∀ y ∈ shopifyPool (product.variants.map scoreVariantJs), effKey best ≤ effKey y) ∧
      (∀ y ∈ pre, effKey best < effKey y) ∧
      l.price_cad = best.price_cad ∧
      l.sale_price_cad = best.sale_price_cad ∧
      l.status = (if best.available = true then LStatus.available else LStatus.sold_out) := by
  simp only [buildSingleShopifyListing] at h
  by_cases hv : product.variants.isEmpty = true
  · rw [if_pos hv] at h
    exact Option.noConfusion h
  · rw [if_neg hv] at h
    cases hsel : selectBest (shopifyPool (List.map scoreVariantJs product.variants)) with
    | none =>
        rw [hsel] at h
        exact Option.noConfusion h
    | some best =>
        rw [hsel] at h
        simp only [Option.some.injEq] at h
        subst h
        obtain ⟨pre, post, hsplit, hlt⟩ := selectBest_first hsel
        exact ⟨best, pre, post, hsplit, selectBest_min hsel, hlt,
          (enforceTorch_prices _).1, (enforceTorch_prices _).2,
          by rw [enforceTorch_status]⟩

/--
C1 (amended): the Shopify variant-selection algorithm scores each variant
with effective price = sale price when compare-at exceeds price, else
price; restricts to variants flagged available when at least one such
variant has a valid effective price, and otherwise falls back to the
variants with a valid effective price; selects the variant with the
lowest effective price breaking ties towards the first encountered; and
emits at most one listing per product — exactly one when some variant
has a valid (positive) effective price, and none otherwise.
-/
theorem claim_C1_variant_selection (u : JsUrl) (product : JsProduct)
    (shop_id category : String) :
    ((buildSingleShopifyListing u product shop_id category).isSome = true ↔
      (product.variants ≠ [] ∧
        ∃ x ∈ product.variants.map scoreVariantJs, x.eff.isSome = true)) ∧
    (∀ (v : JsVariant) (c pr : ℚ), v.compare_at_price = some c → v.price = some pr →
      qDivNat c 100 > qDivNat pr 100 →
      (scoreVariantJs v).price_cad = safePrice (some (qDivNat c 100)) ∧
      (scoreVariantJs v).sale_price_cad = safePrice (some (qDivNat pr 100)) ∧
      (scoreVariantJs v).eff = safePrice (some (qDivNat pr 100))) ∧
    (∀ v : JsVariant,
      (∀ c pr, ¬(v.compare_at_price = some c ∧ v.price = some pr ∧
        qDivNat c 100 > qDivNat pr 100)) →
      (scoreVariantJs v).sale_price_cad = none ∧
      (scoreVariantJs v).price_cad = safePrice (v.price.map (fun n => qDivNat n 100)) ∧
      (scoreVariantJs v).eff = safePrice (v.price.map (fun n => qDivNat n 100))) ∧
    (∀ scored : List (ScoredVariant JsVariant),
      ((∃ x ∈ scored, x.available = true ∧ x.eff.isSome = true) →
        shopifyPool scored = scored.filter (fun x => x.available && x.eff.isSome)) ∧
      ((¬∃ x ∈ scored, x.available = true ∧ x.eff.isSome = true) →
        shopifyPool scored = scored.filter (fun x => x.eff.isSome))) ∧
    (∀ l, buildSingleShopifyListing u product shop_id category = some l →
      ∃ best pre post,
        shopifyPool (product.variants.map scoreVariantJs) = pre ++ best :: post ∧
        (∀ y ∈ shopifyPool (product.variants.map scoreVariantJs), effKey best ≤ effKey y) ∧
        (∀ y ∈ pre, effKey best < effKey y) ∧
        l.price_cad = best.price_cad ∧
        l.sale_price_cad = best.sale_price_cad ∧
        l.status = (if best.available = true then LStatus.available else LStatus.sold_out)) := by
  refine ⟨?_, ?_, ?_, ?_, ?_⟩
  · rw [buildSingleShopifyListing_isSome_iff, shopifyPool_ne_nil_iff]
  · intro v c pr hc hp hgt
    simp [scoreVariantJs, hc, hp, hgt, effectivePrice]
  · intro v hno
    cases hc : v.compare_at_price with
    | none =>
        cases hp : v.price with
        | none => simp [scoreVariantJs, hc, hp, effectivePrice, safePrice]
        | some pr => simp [scoreVariantJs, hc, hp, effectivePrice, safePrice]
    | some c =>
        cases hp : v.price with
        | none => simp [scoreVariantJs, hc, hp, effectivePrice, safePrice]
        | some pr =>
            have hngt : ¬ qDivNat c 100 > qDivNat pr 100 := by
              intro hgt
              exact hno c pr ⟨hc, hp, hgt⟩
            simp [scoreVariantJs, hc, hp, if_neg hngt, effectivePrice, safePrice]
  · intro scored
    constructor
    · intro hex
      obtain ⟨x, hx, hav, heff⟩ := hex
      have hmem : x ∈ scored.filter (fun x => x.available && x.eff.isSome) :=
        List.mem_filter.mpr ⟨hx, by simp [hav, heff]⟩
      have hne : scored.filter (fun x => x.available && x.eff.isSome) ≠ [] := by
        intro hnil
        rw [hnil] at hmem
        exact absurd hmem (List.not_mem_nil x)
      simp only [shopifyPool]
      rw [if_neg (by simpa [List.isEmpty_iff] using hne)]
    · intro hnoex
      have hnil : scored.filter (fun x => x.available && x.eff.isSome) = [] := by
        rw [List.filter_eq_nil_iff]
        intro x hx
        intro hb
        rw [Bool.and_eq_true] at hb
        exact hnoex ⟨x, hx, hb.1, hb.2⟩
      simp only [shopifyPool]
      rw [if_pos (by simpa [List.isEmpty_iff] using hnil)]
  · intro l h
    exact buildSingleShopifyListing_selection u product shop_id category l h

/-- C1 witness: the theorem applied at a concrete two-variant product —
a listing is emitted. -/
theorem claim_C1_variant_selection_witness :
    (buildSingleShopifyListing
      { scheme := "https", host := "x.com", pathname := "/products/a", params := [] }
      { title := some "Gold Torch", variants := [
          { price := some 5000, compare_at_price := some 6000, available := true,
            title := some "Default Title", featured_image := none },
          { price := some 4000, compare_at_price := none, available := false,
            title := some "Small", featured_image := none }],
        featured_image := some "img", images := [] } "shop1" "zoa").isSome = true :=
  (claim_C1_variant_selection
    { scheme := "https", host := "x.com", pathname := "/products/a", params := [] }
    { title := some "Gold Torch", variants := [
        { price := some 5000, compare_at_price := some 6000, available := true,
          title := some "Default Title", featured_image := none },
        { price := some 4000, compare_at_price := none, available := false,
          title := some "Small", featured_image := none }],
      featured_image := some "img", images := [] } "shop1" "zoa").1.mpr
    ⟨by decide, by decide⟩

/-- C1 counterexample: a product with a non-empty variant list but no
valid effective price (its only variant has price 0) emits no listing at
all, contradicting the claim that exactly one listing is always emitted
for a non-empty variant list. -/
theorem claim_C1_counterexample :
    buildSingleShopifyListing
      { scheme := "https", host := "x.com", pathname := "/products/a", params := [] }
      { title := some "T", variants := [
          { price := some 0, compare_at_price := none, available := true,
            title := none, featured_image := none }],
        featured_image := none, images := [] } "s" "zoa" = none ∧
    ({ title := some "T",
       variants := [
         { price := some 0, compare_at_price := none, available := true,
           title := none, featured_image := none }],
       featured_image := none, images := [] } : JsProduct).variants ≠ [] := by
  exact ⟨by decide, by decide⟩

/-! ## Claim C2: persisted URLs -/

/--
C2 (amended): the Shopify JSON extractor, the catalog extractor and the
Shopify HTML fallback listing all carry the canonical product URL (the
normalized URL with the whole query dropped); the WooCommerce HTML path
instead carries `normalizeUrl`, which keeps the sorted non-tracking query
parameters, so two Woo product URLs differing only in a non-tracking
query parameter (such as `?variant=123`) persist under different keys.
-/
theorem claim_C2_persisted_urls :
    (∀ (u : JsUrl) (product : JsProduct) (shop_id category : String) (l : Listing),
      buildSingleShopifyListing u product shop_id category = some l →
        l.url = some (urlToString (canonicalProductUrl u))) ∧
    (∀ (origin : JsOrigin) (p : PJProduct) (shop_id category : String) (l : Listing),
      buildSingleShopifyListingFromProductsJson origin p shop_id category = some l →
        l.url = some (urlToString (canonicalProductUrl (catalogProductUrl origin
          (jsTrim (if optStrTruthy p.handle then p.handle.getD "" else "")))))) ∧
    (∀ (u : JsUrl) (fb : ShopifyHtmlFallback) (shop_id category : String),
      (buildShopifyFallbackListing u fb shop_id category).url =
        some (urlToString (canonicalProductUrl u))) ∧
    (∀ (u : JsUrl) (page : WooPage) (shop_id category : String),
      (parseHtmlProduct u page shop_id category).url =
        some (urlToString (normalizeUrl u))) ∧
    (∀ u : JsUrl, canonicalProductUrl u = { normalizeUrl u with params := [] }) := by
  refine ⟨?_, ?_, ?_, ?_, fun u => rfl⟩
  · intro u product shop_id category l h
    simp only [buildSingleShopifyListing] at h
    by_cases hv : product.variants.isEmpty = true
    · rw [if_pos hv] at h
      exact Option.noConfusion h
    · rw [if_neg hv] at h
      cases hsel : selectBest (shopifyPool (List.map scoreVariantJs product.variants)) with
      | none =>
          rw [hsel] at h
          exact Option.noConfusion h
      | some best =>
          rw [hsel] at h
          simp only [Option.some.injEq] at h
          subst h
          rw [enforceTorch_url]
  · intro origin p shop_id category l h
    simp only [buildSingleShopifyListingFromProductsJson] at h
    by_cases hh : jsTrim (if optStrTruthy p.handle = true then p.handle.getD "" else "") = ""
    · rw [if_pos hh] at h
      exact Option.noConfusion h
    · rw [if_neg hh] at h
      by_cases hv : p.variants.isEmpty = true
      · rw [if_pos hv] at h
        exact Option.noConfusion h
      · rw [if_neg hv] at h
        cases hsel : selectBest (List.filter (fun x => x.eff.isSome)
            (List.map scoreVariantPJ p.variants)) with
        | none =>
            rw [hsel] at h
            exact Option.noConfusion h
        | some best =>
            rw [hsel] at h
            simp only [Option.some.injEq] at h
            subst h
            rw [enforceTorch_url]
  · intro u fb shop_id category
    unfold buildShopifyFallbackListing
    rw [enforceTorch_url]
  · intro u page shop_id category
    simp only [parseHtmlProduct]
    rw [enforceTorch_url]

/-- C2 witness: the theorem applied at a concrete Shopify product URL
carrying a `?variant` parameter — the listing's url drops the query. -/
theorem claim_C2_persisted_urls_witness :
    ({ shop_id := "s1", category := "zoa", title_raw := "T",
       url := some "https://x.com/products/a", image_url := none,
       price_cad := some 50, sale_price_cad := none, status := .available,
       variant := none, sale_mode := none, unit_type := none,
       unit_count := none } : Listing).url = some "https://x.com/products/a" := by
  have hb : buildSingleShopifyListing
      { scheme := "https", host := "x.com", pathname := "/products/a",
        params := [("variant", "42")] }
      { title := some "T", variants := [
          { price := some 5000, compare_at_price := none, available := true,
            title := none, featured_image := none }],
        featured_image := none, images := [] } "s1" "zoa" =
      some { shop_id := "s1", category := "zoa", title_raw := "T",
             url := some "https://x.com/products/a", image_url := none,
             price_cad := some 50, sale_price_cad := none, status := .available,
             variant := none, sale_mode := none, unit_type := none,
             unit_count := none } := by decide
  have h := claim_C2_persisted_urls.1 _ _ _ _ _ hb
  rw [h]
  rfl

/-- C2 counterexample: the WooCommerce extractor keeps the query string,
so its persisted url differs from the canonical product URL. -/
theorem claim_C2_counterexample :
    (parseHtmlProduct
      { scheme := "https", host := "x.com", pathname := "/product/a",
        params := [("variant", "123")] }
      { productTitleText := "T", firstH1Text := "", docTitle := "",
        saleAmountText := "", saleAmountAltText := "", saleInsText := "",
        regularAmountText := "", regularAmountAltText := "", regularDelText := "",
        singleAmountText := "25.00", singleAmountAltText := "", singlePPriceText := "",
        stockText := "", ogImageProp := none, ogImageName := none,
        imageCandidates := [] } "s1" "zoa").url =
      some "https://x.com/product/a?variant=123" ∧
    urlToString (canonicalProductUrl
      { scheme := "https", host := "x.com", pathname := "/product/a",
        params := [("variant", "123")] }) = "https://x.com/product/a" ∧
    some "https://x.com/product/a?variant=123" ≠ some "https://x.com/product/a" := by
  exact ⟨by decide, by decide, by decide⟩

/-! ## Claim C4: URL normalisation -/

theorem charLt_asymm {a b : Char} (h : charLt a b = true) : charLt b a = false := by
  simp [charLt] at h ⊢
  omega

theorem charLt_eq {a b : Char} (h1 : charLt a b = false) (h2 : charLt b a = false) : a = b := by
  simp [charLt] at h1 h2
  have : a.toNat = b.toNat := by omega
  exact Char.eq_of_val_eq (UInt32.ext this)

theorem charLt_trans {a b c : Char} (h1 : charLt a b = true) (h2 : charLt b c = true) :
    charLt a c = true := by
  simp [charLt] at h1 h2 ⊢
  omega

theorem charListLt_asymm : ∀ {l₁ l₂ : List Char},
    charListLt l₁ l₂ = true → charListLt l₂ l₁ = false := by
  intro l₁
  induction l₁ with
  | nil =>
      intro l₂ h
      cases l₂ <;> simp [charListLt]
  | cons a as ih =>
      intro l₂ h
      cases l₂ with
      | nil => simp [charListLt] at h
      | cons b bs =>
          simp only [charListLt] at h ⊢
          by_cases hab : charLt a b = true
          · rw [if_neg (by simp [charLt_asymm hab]), if_pos hab]
          · rw [if_neg (by simp [hab])] at h
            by_cases hba : charLt b a = true
            · rw [if_pos hba] at h
              exact Bool.noConfusion h
            · rw [if_neg (by simp [hba])] at h
              rw [if_neg (by simp [hba]), if_neg (by simp [hab])]
              exact ih h

theorem charListLt_eq_of_not : ∀ {l₁ l₂ : List Char},
    charListLt l₁ l₂ = false → charListLt l₂ l₁ = false → l₁ = l₂ := by
  intro l₁
  induction l₁ with
  | nil =>
      intro l₂ h1 h2
      cases l₂ with
      | nil => rfl
      | cons b bs => simp [charListLt] at h1
  | cons a as ih =>
      intro l₂ h1 h2
      cases l₂ with
      | nil => simp [charListLt] at h2
      | cons b bs =>
          simp only [charListLt] at h1 h2
          by_cases hab : charLt a b = true
          · rw [if_pos hab] at h1
            exact Bool.noConfusion h1
          · by_cases hba : charLt b a = true
            · rw [if_pos hba] at h2
              exact Bool.noConfusion h2
            · rw [if_neg (by simp [hab]), if_neg (by simp [hba])] at h1
              rw [if_neg (by simp [hba]), if_neg (by simp [hab])] at h2
              rw [charLt_eq (Bool.eq_false_iff.mpr hab) (Bool.eq_false_iff.mpr hba),
                ih h1 h2]

theorem charListLt_trans : ∀ {l₁ l₂ l₃ : List Char},
    charListLt l₁ l₂ = true → charListLt l₂ l₃ = true → charListLt l₁ l₃ = true := by
  intro l₁
  induction l₁ with
  | nil =>
      intro l₂ l₃ h1 h2
      cases l₂ with
      | nil => exact h2
      | cons b bs =>
          cases l₃ with
          | nil => simp [charListLt] at h2
          | cons c cs => simp [charListLt]
  | cons a as ih =>
      intro l₂ l₃ h1 h2
      cases l₂ with
      | nil => simp [charListLt] at h1
      | cons b bs =>
          cases l₃ with
          | nil => simp [charListLt] at h2
          | cons c cs =>
              simp only [charListLt] at h1 h2 ⊢
              by_cases hab : charLt a b = true
              · by_cases hbc : charLt b c = true
                · rw [if_pos (charLt_trans hab hbc)]
                · by_cases hcb : charLt c b = true
                  · rw [if_neg (by simp [hbc]), if_pos hcb] at h2
                    exact Bool.noConfusion h2
                  · have hbceq : b = c := charLt_eq (Bool.eq_false_iff.mpr hbc)
                      (Bool.eq_false_iff.mpr hcb)
                    subst hbceq
                    rw [if_pos hab]
              · by_cases hba : charLt b a = true
                · rw [if_neg (by simp [hab]), if_pos hba] at h1
                  exact Bool.noConfusion h1
                · have habeq : a = b := charLt_eq (Bool.eq_false_iff.mpr hab)
                    (Bool.eq_false_iff.mpr hba)
                  subst habeq
                  rw [if_neg (by simp [hab]), if_neg (by simp [hba])] at h1
                  by_cases hac : charLt a c = true
                  · rw [if_pos hac]
                  · by_cases hca : charLt c a = true
                    · rw [if_neg (by simp [hac]), if_pos hca] at h2
                      exact Bool.noConfusion h2
                    · rw [if_neg (by simp [hac]), if_neg (by simp [hca])] at h2
                      rw [if_neg (by simp [hac]), if_neg (by simp [hca])]
                      exact ih h1 h2

theorem string_toList_inj {s t : String} (h : s.toList = t.toList) : s = t := by
  cases s
  cases t
  exact congrArg String.mk (by simpa [String.toList] using h)

theorem keyLe_total (x y : String × String) : keyLe x y = true ∨ keyLe y x = true := by
  by_cases h : charListLt y.1.toList x.1.toList = true
  · right
    simp only [keyLe, charListLt_asymm h]
    rfl
  · left
    simp only [keyLe, Bool.eq_false_iff.mpr h]
    rfl

theorem keyLe_trans {x y z : String × String} (h1 : keyLe x y = true) (h2 : keyLe y z = true) :
    keyLe x z = true := by
  simp only [keyLe, Bool.not_eq_true'] at h1 h2 ⊢
  by_cases hxy : charListLt x.1.toList y.1.toList = true
  · by_cases hzx : charListLt z.1.toList x.1.toList = true
    · have := charListLt_trans hzx hxy
      rw [this] at h2
      exact Bool.noConfusion h2
    · exact Bool.eq_false_iff.mpr hzx
  · have hkeys : x.1.toList = y.1.toList :=
      charListLt_eq_of_not (Bool.eq_false_iff.mpr hxy) h1
    rw [← hkeys] at h2
    exact h2

theorem keyLe_antisymm_key {x y : String × String} (h1 : keyLe x y = true)
    (h2 : keyLe y x = true) : x.1 = y.1 := by
  simp only [keyLe, Bool.not_eq_true'] at h1 h2
  exact string_toList_inj (charListLt_eq_of_not h2 h1)

theorem insertParam_perm (x : String × String) (l : List (String × String)) :
    List.Perm (insertParam x l) (x :: l) := by
  induction l with
  | nil => rfl
  | cons y ys ih =>
      simp only [insertParam]
      split
      · rfl
      · exact (List.Perm.cons y ih).trans (List.Perm.swap x y ys)

theorem sortParams_perm (l : List (String × String)) : List.Perm (sortParams l) l := by
  induction l with
  | nil => rfl
  | cons x xs ih =>
      exact (insertParam_perm x (sortParams xs)).trans (List.Perm.cons x ih)

theorem insertParam_sorted (x : String × String) (l : List (String × String))
    (h : l.Pairwise (fun a b => keyLe a b = true)) :
    (insertParam x l).Pairwise (fun a b => keyLe a b = true) := by
  induction l with
  | nil => simp [insertParam]
  | cons y ys ih =>
      simp only [insertParam]
      by_cases hxy : keyLe x y = true
      · rw [if_pos hxy]
        refine List.Pairwise.cons ?_ h
        intro z hz
        rcases List.mem_cons.mp hz with hz | hz
        · subst hz; exact hxy
        · exact keyLe_trans hxy ((List.pairwise_cons.mp h).1 z hz)
      · rw [if_neg hxy]
        have hyx : keyLe y x = true := by
          rcases keyLe_total x y with ht | ht
          · exact absurd ht hxy
          · exact ht
        refine List.Pairwise.cons ?_ (ih (List.pairwise_cons.mp h).2)
        intro z hz
        have hz' := (insertParam_perm x ys).mem_iff.mp hz
        rcases List.mem_cons.mp hz' with hz' | hz'
        · subst hz'; exact hyx
        · exact (List.pairwise_cons.mp h).1 z hz'

theorem sortParams_sorted (l : List (String × String)) :
    (sortParams l).Pairwise (fun a b => keyLe a b = true) := by
  induction l with
  | nil => simp [sortParams]
  | cons x xs ih => exact insertParam_sorted x (sortParams xs) ih

theorem sortParams_of_sorted (l : List (String × String))
    (h : l.Pairwise (fun a b => keyLe a b = true)) : sortParams l = l := by
  induction l with
  | nil => rfl
  | cons x xs ih =>
      have htail := (List.pairwise_cons.mp h).2
      simp only [sortParams, ih htail]
      cases xs with
      | nil => rfl
      | cons y ys =>
          simp only [insertParam]
          rw [if_pos ((List.pairwise_cons.mp h).1 y (List.mem_cons_self y ys))]

theorem pairwise_keyLt_of_nodup (l : List (String × String))
    (hl : (l.map Prod.fst).Nodup)
    (hp : l.Pairwise (fun a b => keyLe a b = true)) :
    l.Pairwise (fun a b => charListLt a.1.toList b.1.toList = true) := by
  have hne : l.Pairwise (fun a b => a.1 ≠ b.1) := List.pairwise_map.mp hl
  refine (hp.and hne).imp ?_
  intro a b hab
  obtain ⟨hle, hneq⟩ := hab
  by_cases hba : charListLt a.1.toList b.1.toList = true
  · exact hba
  · exfalso
    simp only [keyLe, Bool.not_eq_true'] at hle
    exact hneq (string_toList_inj (charListLt_eq_of_not (Bool.eq_false_iff.mpr hba) hle))

theorem sortParams_eq_of_perm (l₁ l₂ : List (String × String))
    (hperm : List.Perm l₁ l₂) (hnd : (l₁.map Prod.fst).Nodup) :
    sortParams l₁ = sortParams l₂ := by
  have hperm' : List.Perm (sortParams l₁) (sortParams l₂) :=
    (sortParams_perm l₁).trans (hperm.trans (sortParams_perm l₂).symm)
  have hnd1 : ((sortParams l₁).map Prod.fst).Nodup :=
    (List.Perm.nodup_iff (List.Perm.map Prod.fst (sortParams_perm l₁))).mpr hnd
  have hnd2 : ((sortParams l₂).map Prod.fst).Nodup :=
    (List.Perm.nodup_iff (List.Perm.map Prod.fst hperm')).mp hnd1
  haveI : IsAntisymm (String × String)
      (fun a b => charListLt a.1.toList b.1.toList = true) :=
    ⟨fun a b hab hba => absurd hba (by rw [charListLt_asymm hab]; simp)⟩
  exact List.eq_of_perm_of_sorted hperm'
    (pairwise_keyLt_of_nodup _ hnd1 (sortParams_sorted l₁))
    (pairwise_keyLt_of_nodup _ hnd2 (sortParams_sorted l₂))

/-- The pathname transform of `normalizeUrl`: strip one locale segment,
drop trailing slashes, read an emptied path back as `"/"`. -/
def normalizePath (p : String) : String :=
  let p2 := dropTrailingSlashes (stripLocalePath p)
  if p2 = "" then "/" else p2

theorem normalizeUrl_components (u : JsUrl) :
    (normalizeUrl u).scheme = u.scheme ∧ (normalizeUrl u).host = u.host ∧
    (normalizeUrl u).pathname = normalizePath u.pathname ∧
    (normalizeUrl u).params =
      sortParams (u.params.filter (fun kv => !(trackingKeys.contains kv.1))) :=
  ⟨rfl, rfl, rfl, rfl⟩

theorem dropWhile_dropWhile (p : Char → Bool) (l : List Char) :
    (l.dropWhile p).dropWhile p = l.dropWhile p := by
  induction l with
  | nil => rfl
  | cons c cs ih =>
      by_cases hc : p c = true
      · simp only [List.dropWhile_cons, hc, if_true]
        exact ih
      · simp only [List.dropWhile_cons, hc, if_false]
        simp [List.dropWhile_cons, hc]

theorem dropTrailingSlashes_idem (s : String) :
    dropTrailingSlashes (dropTrailingSlashes s) = dropTrailingSlashes s := by
  unfold dropTrailingSlashes
  simp only [String.toList]
  refine congrArg String.mk ?_
  rw [List.reverse_reverse, dropWhile_dropWhile]

theorem normalizePath_idem (p : String)
    (h : stripLocalePath (normalizePath p) = normalizePath p) :
    normalizePath (normalizePath p) = normalizePath p := by
  conv_lhs => rw [normalizePath, h]
  by_cases h2 : dropTrailingSlashes (stripLocalePath p) = ""
  · have hp : normalizePath p = "/" := by
      rw [normalizePath, if_pos h2]
    rw [hp]
    rfl
  · have hp : normalizePath p = dropTrailingSlashes (stripLocalePath p) := by
      rw [normalizePath, if_neg h2]
    rw [hp, dropTrailingSlashes_idem, if_neg h2]

theorem normalizeUrl_params_stable (u : JsUrl) :
    ((normalizeUrl u).params).filter (fun kv => !(trackingKeys.contains kv.1)) =
      (normalizeUrl u).params := by
  rw [List.filter_eq_self]
  intro kv hkv
  have hmem : kv ∈ u.params.filter (fun kv => !(trackingKeys.contains kv.1)) :=
    (sortParams_perm _).mem_iff.mp hkv
  exact (List.mem_filter.mp hmem).2

theorem list_length_dropWhile_le (p : Char → Bool) (l : List Char) :
    (l.dropWhile p).length ≤ l.length := by
  induction l with
  | nil => simp
  | cons c cs ih =>
      by_cases hc : p c = true
      · simp only [List.dropWhile_cons, hc, if_true, List.length_cons]
        omega
      · simp [List.dropWhile_cons, hc]

theorem stripLocalePath_spec (p : String) :
    stripLocalePath p = p ∨ (4 ≤ p.length ∧ (stripLocalePath p).length < p.length) := by
  have hl : p.length = p.toList.length := rfl
  unfold stripLocalePath
  split
  · rename_i a b rest heq
    by_cases hab : (a.isAlpha && b.isAlpha) = true
    · rw [if_pos hab]
      right
      rw [heq] at hl
      simp only [List.length_cons] at hl
      have hsl : (String.mk ('/' :: rest)).length = rest.length + 1 := rfl
      exact ⟨by omega, by omega⟩
    · rw [if_neg hab]
      left
      rfl
  · rename_i a b c d rest heq
    by_cases hab : (a.isAlpha && b.isAlpha && c.isAlpha && d.isAlpha) = true
    · rw [if_pos hab]
      right
      rw [heq] at hl
      simp only [List.length_cons] at hl
      have hsl : (String.mk ('/' :: rest)).length = rest.length + 1 := rfl
      exact ⟨by omega, by omega⟩
    · rw [if_neg hab]
      left
      rfl
  · left
    rfl

theorem dropTrailingSlashes_length_le (s : String) :
    (dropTrailingSlashes s).length ≤ s.length := by
  have h1 : (dropTrailingSlashes s).length
      = ((s.toList.reverse.dropWhile (fun c => c == '/')).reverse).length := rfl
  have h2 : s.length = s.toList.length := rfl
  rw [h1, h2, List.length_reverse]
  calc (s.toList.reverse.dropWhile (fun c => c == '/')).length
      ≤ s.toList.reverse.length := list_length_dropWhile_le _ _
    _ = s.toList.length := List.length_reverse _

theorem normalizePath_ne_of_strip (q : String) (h : stripLocalePath q ≠ q) :
    normalizePath q ≠ q := by
  rcases stripLocalePath_spec q with heq | ⟨h4, hlt⟩
  · exact absurd heq h
  · unfold normalizePath
    intro hq
    by_cases h2 : dropTrailingSlashes (stripLocalePath q) = ""
    · rw [if_pos h2] at hq
      have h1 : q.length = 1 := by
        rw [← hq]
        decide
      omega
    · rw [if_neg h2] at hq
      have hle := dropTrailingSlashes_length_le (stripLocalePath q)
      have hql : q.length = (dropTrailingSlashes (stripLocalePath q)).length :=
        (congrArg String.length hq).symm
      omega

/--
C4 (amended): `normalizeUrl` is deterministic, but strips only one
leading locale segment per invocation.  It is idempotent exactly on the
URLs whose once-normalized path does not again begin with a locale-like
segment (both directions proved: a re-stripping path strictly shortens,
so a second normalization changes the URL); the tracking parameters it
deletes are exactly `utm_source`, `utm_medium`, `utm_campaign`,
`utm_term`, `utm_content`, `fbclid`, `gclid` — not every `utm_*` key
(`utm_id` survives, see the counterexample) — and two URLs differing
only in those deleted keys normalize identically; two URLs differing
only in the order of their query parameters normalize identically
provided the remaining (non-tracking) keys are pairwise distinct; and
prepending one locale segment to a path that does not itself start with
a locale-like segment does not change the normalization.
-/
theorem claim_C4_normalizeUrl (u u₂ : JsUrl) :
    (normalizeUrl (normalizeUrl u) = normalizeUrl u ↔
      stripLocalePath ((normalizeUrl u).pathname) = (normalizeUrl u).pathname) ∧
    (u₂.scheme = u.scheme → u₂.host = u.host → u₂.pathname = u.pathname →
      u₂.params.filter (fun kv => !(trackingKeys.contains kv.1)) =
        u.params.filter (fun kv => !(trackingKeys.contains kv.1)) →
      normalizeUrl u₂ = normalizeUrl u) ∧
    (u₂.scheme = u.scheme → u₂.host = u.host → u₂.pathname = u.pathname →
      List.Perm u₂.params u.params →
      ((u₂.params.filter (fun kv => !(trackingKeys.contains kv.1))).map Prod.fst).Nodup →
      normalizeUrl u₂ = normalizeUrl u) ∧
    (u₂.scheme = u.scheme → u₂.host = u.host → u₂.params = u.params →
      stripLocalePath u₂.pathname = u.pathname →
      stripLocalePath u.pathname = u.pathname →
      normalizeUrl u₂ = normalizeUrl u) := by
  refine ⟨?_, ?_, ?_, ?_⟩
  · constructor
    · intro heq
      by_contra hne
      have hp : normalizePath ((normalizeUrl u).pathname) = (normalizeUrl u).pathname := by
        have h3 := (normalizeUrl_components (normalizeUrl u)).2.2.1
        rw [← h3]
        exact congrArg JsUrl.pathname heq
      exact normalizePath_ne_of_strip _ hne hp
    intro h
    have hpath : normalizePath (normalizePath u.pathname) = normalizePath u.pathname :=
      normalizePath_idem u.pathname h
    have hparams : sortParams (((normalizeUrl u).params).filter
        (fun kv => !(trackingKeys.contains kv.1))) = (normalizeUrl u).params := by
      rw [normalizeUrl_params_stable]
      exact sortParams_of_sorted _ (sortParams_sorted _)
    have hL : normalizeUrl (normalizeUrl u) =
        { scheme := u.scheme, host := u.host,
          pathname := normalizePath (normalizePath u.pathname),
          params := sortParams (((normalizeUrl u).params).filter
            (fun kv => !(trackingKeys.contains kv.1))) } := rfl
    rw [hL, hpath, hparams]
    rfl
  · intro hs hh hp hfilter
    have hL : normalizeUrl u₂ =
        { scheme := u₂.scheme, host := u₂.host,
          pathname := normalizePath u₂.pathname,
          params := sortParams (u₂.params.filter
            (fun kv => !(trackingKeys.contains kv.1))) } := rfl
    rw [hL, hs, hh, hp, hfilter]
    rfl
  · intro hs hh hp hperm hnd
    have hfiltperm : List.Perm
        (u₂.params.filter (fun kv => !(trackingKeys.contains kv.1)))
        (u.params.filter (fun kv => !(trackingKeys.contains kv.1))) :=
      hperm.filter _
    have hsorteq := sortParams_eq_of_perm _ _ hfiltperm hnd
    have hL : normalizeUrl u₂ =
        { scheme := u₂.scheme, host := u₂.host,
          pathname := normalizePath u₂.pathname,
          params := sortParams (u₂.params.filter
            (fun kv => !(trackingKeys.contains kv.1))) } := rfl
    rw [hL, hs, hh, hp, hsorteq]
    rfl
  · intro hs hh hpar hstrip2 hstrip1
    have hpath : normalizePath u₂.pathname = normalizePath u.pathname := by
      unfold normalizePath
      rw [hstrip2, hstrip1]
    have hL : normalizeUrl u₂ =
        { scheme := u₂.scheme, host := u₂.host,
          pathname := normalizePath u₂.pathname,
          params := sortParams (u₂.params.filter
            (fun kv => !(trackingKeys.contains kv.1))) } := rfl
    rw [hL, hs, hh, hpar, hpath]
    rfl

/-- C4 witness: the theorem's idempotence part applied at a concrete URL
with tracking and unsorted parameters. -/
theorem claim_C4_normalizeUrl_witness :
    normalizeUrl (normalizeUrl
      { scheme := "https", host := "x.com", pathname := "/products/a/",
        params := [("utm_source", "ig"), ("b", "2"), ("a", "1")] }) =
    normalizeUrl
      { scheme := "https", host := "x.com", pathname := "/products/a/",
        params := [("utm_source", "ig"), ("b", "2"), ("a", "1")] } :=
  (claim_C4_normalizeUrl
    { scheme := "https", host := "x.com", pathname := "/products/a/",
      params := [("utm_source", "ig"), ("b", "2"), ("a", "1")] }
    { scheme := "https", host := "x.com", pathname := "/products/a/",
      params := [("utm_source", "ig"), ("b", "2"), ("a", "1")] }).1.mpr (by decide)

/-- C4 counterexample: `normalizeUrl` is not idempotent — the path
`/en/ca/p` loses one locale-like segment per application; two URLs
differing only in the order of equal-key parameters normalize to
different strings; and two URLs differing only in a `utm_id` parameter
normalize to different strings, since only the seven listed tracking
keys are deleted, not every `utm_*` key. -/
theorem claim_C4_counterexample :
    normalizeUrl (normalizeUrl
      { scheme := "https", host := "x.com", pathname := "/en/ca/p", params := [] }) ≠
      normalizeUrl
        { scheme := "https", host := "x.com", pathname := "/en/ca/p", params := [] } ∧
    normalizeUrl
        { scheme := "https", host := "x.com", pathname := "/p",
          params := [("a", "1"), ("a", "2")] } ≠
      normalizeUrl
        { scheme := "https", host := "x.com", pathname := "/p",
          params := [("a", "2"), ("a", "1")] } ∧
    normalizeUrl
        { scheme := "https", host := "x.com", pathname := "/p",
          params := [("utm_id", "7")] } ≠
      normalizeUrl
        { scheme := "https", host := "x.com", pathname := "/p", params := [] } := by
  exact ⟨by decide, by decide, by decide⟩

/-- C10 witness: the theorem applied to a concrete two-product catalog —
only the torch-looking product is counted. -/
theorem claim_C10_reef_only_torch_witness :
    (scrapeReefSolutionCatalog { scheme := "https", host := "reefsolution.com" } "s1" "zoa"
      [{ title := some "Gold Torch", handle := some "gold-torch", tags := .missing,
         variants := [{ title := none, price := some "25", compare_at_price := none }],
         image := none, images := [] },
       { title := some "Zoa mat", handle := some "zoa-mat", tags := .missing,
         variants := [{ title := none, price := some "10", compare_at_price := none }],
         image := none, images := [] }]).2 = 1 := by
  rw [(claim_C10_reef_only_torch { scheme := "https", host := "reefsolution.com" } "s1" "zoa"
    [{ title := some "Gold Torch", handle := some "gold-torch", tags := .missing,
       variants := [{ title := none, price := some "25", compare_at_price := none }],
       image := none, images := [] },
     { title := some "Zoa mat", handle := some "zoa-mat", tags := .missing,
       variants := [{ title := none, price := some "10", compare_at_price := none }],
       image := none, images := [] }]).2.1]
  decide
